import Mathlib

/-!
Verification development for the `node-phomemo-printer` repository.

The main subject is `src/dithering.js`, an image-quantization engine over
RGBA pixel buffers, plus the bit-packing stage of the printer driver.

Embedding conventions:
* JavaScript numbers are modelled as exact rationals (`ℚ`).
* The flat RGBA buffer is modelled as a total function `ℕ → ℚ`; the
  well-formedness contract of the engine (buffer length = width·height·4)
  is reflected by iterating the per-pixel loops over `width * height`
  pixels, which coincides with the `data.length` based loops of the
  source under that contract.
* `Math.random()` is modelled as an explicit stream `rand : ℕ → ℚ` of
  successive outputs (the source reads an ambient generator).
* `Math.sqrt` appears in the source only inside a sort comparator on
  distances; since the square root is strictly monotone on nonnegative
  reals, comparing distances is equivalent to comparing squared
  distances, and the embedding sorts by exact squared distances in `ℚ`.
-/

/-- An image following the PNG imageData shape used by `dithering.js`:
`width`, `height`, and a flat RGBA buffer. -/
structure Image where
  width : ℕ
  height : ℕ
  data : ℕ → ℚ

/-- The JavaScript assignment chain `data[idx] = data[idx+1] = data[idx+2] = v`. -/
def update3 (d : ℕ → ℚ) (idx : ℕ) (v : ℚ) : ℕ → ℚ :=
  fun i => if i = idx ∨ i = idx + 1 ∨ i = idx + 2 then v else d i

/-- Pointwise update of a function modelling a JavaScript array cell write. -/
def updFn (f : ℕ → ℚ) (i : ℕ) (v : ℚ) : ℕ → ℚ :=
  fun j => if j = i then v else f j

/-- `Math.max(0, Math.min(255, v))`, the saturating clamp used throughout. -/
def clamp (v : ℚ) : ℚ := max 0 (min 255 v)

/-- The luminance computation of `toGrayscale`:
`Math.floor(0.299*r + 0.587*g + 0.114*b)`. -/
def lum (r g b : ℚ) : ℚ :=
  ((⌊(0.299 : ℚ) * r + (0.587 : ℚ) * g + (0.114 : ℚ) * b⌋ : ℤ) : ℚ)

/-- Generic per-pixel pass: for each pixel index `p` of the list, read the
three colour channels and overwrite them (assignment chain) with
`f p R G B`.  This is the shape of every pointwise loop of the source
(`toGrayscale`, `threshold`, `orderedBayer`, `randomDither`, `ditherpunk`,
`evenTonedScreening`). -/
def pixelScan (f : ℕ → ℚ → ℚ → ℚ → ℚ) (ps : List ℕ) (d : ℕ → ℚ) : ℕ → ℚ :=
  ps.foldl (fun dd p => update3 dd (4 * p) (f p (dd (4 * p)) (dd (4 * p + 1)) (dd (4 * p + 2)))) d

/-- `toGrayscale(image)`: every pixel gets `R = G = B = lum(R,G,B)`; the
loop over `data.length` in steps of 4 visits exactly the
`width * height` pixels of a well-formed buffer. -/
def toGrayscale (image : Image) : Image :=
  { image with
    data := pixelScan (fun _ r g b => lum r g b)
      (List.range (image.width * image.height)) image.data }

/-- `addError(data, w, h, x, y, error, factor)`: add `error * factor` to a
pixel if within bounds, clamped to `[0, 255]`; out-of-bounds targets are
silently dropped. -/
def addError (w h : ℕ) (d : ℕ → ℚ) (x y : ℤ) (error factor : ℚ) : ℕ → ℚ :=
  if x < 0 ∨ (w : ℤ) ≤ x ∨ y < 0 ∨ (h : ℤ) ≤ y then d
  else
    let idx := (y.toNat * w + x.toNat) * 4
    update3 d idx (clamp (d idx + error * factor))

/-- One iteration of the `errorDiffusion` pixel loop at position
`pos = (x, y)`: quantize against the fixed threshold 128, write the new
binary value into R, G, B, then distribute the quantization error over
the kernel (with the x offsets mirrored on reversed serpentine rows). -/
def diffuseStep (w h : ℕ) (kernel : List (ℤ × ℤ × ℚ)) (divisor : ℚ) (serp : Bool)
    (d : ℕ → ℚ) (pos : ℕ × ℕ) : ℕ → ℚ :=
  let x := pos.1
  let y := pos.2
  let idx := (y * w + x) * 4
  let oldPixel := d idx
  let newPixel : ℚ := if oldPixel < 128 then 0 else 255
  let error := oldPixel - newPixel
  let mirror := serp && y % 2 == 1
  let d1 := update3 d idx newPixel
  kernel.foldl
    (fun dd e =>
      addError w h dd ((x : ℤ) + (if mirror then -e.1 else e.1)) ((y : ℤ) + e.2.1)
        error (e.2.2 / divisor))
    d1

/-- The pixel traversal order of `errorDiffusion`: rows top to bottom;
within a row left to right, except that with serpentine scanning odd
rows run right to left. -/
def scanOrder (w h : ℕ) (serp : Bool) : List (ℕ × ℕ) :=
  (List.range h).flatMap fun y =>
    (if serp && y % 2 == 1 then (List.range w).reverse else List.range w).map fun x => (x, y)

/-- `errorDiffusion(image, kernel, divisor, serpentine)`. -/
def errorDiffusion (image : Image) (kernel : List (ℤ × ℤ × ℚ)) (divisor : ℚ)
    (serp : Bool) : Image :=
  { image with
    data := (scanOrder image.width image.height serp).foldl
      (diffuseStep image.width image.height kernel divisor serp) image.data }

/-- Options record of `dither`; mirrors the fields the source reads off
`options`, plus the explicit random stream. -/
structure DitherOptions where
  serpentine : Bool := false
  custom : Option (Image → Image) := none
  matrixSize : Option ℕ := none
  levels : Option ℕ := none
  tmwid : Option ℕ := none
  tmheight : Option ℕ := none
  tmmat : Option (ℕ → ℕ → ℚ) := none
  rand : ℕ → ℚ := fun _ => 0

/-- The JavaScript idiom `opts.field || default` on numeric options:
both `undefined` and `0` fall back to the default. -/
def jsOrNat (o : Option ℕ) (dflt : ℕ) : ℕ :=
  match o with
  | none => dflt
  | some n => if n = 0 then dflt else n

/-- Floyd-Steinberg kernel, divisor 16. -/
def floydSteinbergKernel : List (ℤ × ℤ × ℚ) :=
  [(1, 0, 7), (-1, 1, 3), (0, 1, 5), (1, 1, 1)]

/-- Atkinson kernel, divisor 8. -/
def atkinsonKernel : List (ℤ × ℤ × ℚ) :=
  [(1, 0, 1), (2, 0, 1), (-1, 1, 1), (0, 1, 1), (1, 1, 1), (0, 2, 1)]

/-- Burkes kernel, divisor 32. -/
def burkesKernel : List (ℤ × ℤ × ℚ) :=
  [(1, 0, 8), (2, 0, 4), (-2, 1, 2), (-1, 1, 4), (0, 1, 8), (1, 1, 4), (2, 1, 2)]

/-- Diffusion-Row kernel, divisor 2. -/
def diffusionRowKernel : List (ℤ × ℤ × ℚ) :=
  [(1, 0, 1), (2, 0, 1)]

/-- Diffusion-Column kernel, divisor 2. -/
def diffusionColumnKernel : List (ℤ × ℤ × ℚ) :=
  [(0, 1, 1), (0, 2, 1)]

/-- Diffusion-2D kernel, divisor 10. -/
def diffusion2DKernel : List (ℤ × ℤ × ℚ) :=
  [(1, 0, 3), (-1, 1, 2), (0, 1, 3), (1, 1, 2)]

/-- Jarvis-Judice-Ninke kernel, divisor 48. -/
def jarvisJudiceNinkeKernel : List (ℤ × ℤ × ℚ) :=
  [(1, 0, 7), (2, 0, 5), (-2, 1, 3), (-1, 1, 5), (0, 1, 7), (1, 1, 5), (2, 1, 3),
    (-2, 2, 1), (-1, 2, 3), (0, 2, 5), (1, 2, 3), (2, 2, 1)]

/-- Sierra2 kernel, divisor 12. -/
def sierra2Kernel : List (ℤ × ℤ × ℚ) :=
  [(1, 0, 4), (2, 0, 3), (-2, 1, 1), (-1, 1, 2), (0, 1, 3), (1, 1, 2), (2, 1, 1),
    (-1, 2, 1), (0, 2, 2), (1, 2, 1)]

/-- Stucki kernel, divisor 42. -/
def stuckiKernel : List (ℤ × ℤ × ℚ) :=
  [(1, 0, 8), (2, 0, 4), (-2, 1, 2), (-1, 1, 4), (0, 1, 8), (1, 1, 4), (2, 1, 2),
    (-2, 2, 1), (-1, 2, 2), (0, 2, 4), (1, 2, 2), (2, 2, 1)]

/-- `floydSteinberg(image, opts)`. -/
def floydSteinberg (image : Image) (opts : DitherOptions) : Image :=
  errorDiffusion (toGrayscale image) floydSteinbergKernel 16 opts.serpentine

/-- `atkinson(image, opts)`. -/
def atkinson (image : Image) (opts : DitherOptions) : Image :=
  errorDiffusion (toGrayscale image) atkinsonKernel 8 opts.serpentine

/-- `burkes(image, opts)`. -/
def burkes (image : Image) (opts : DitherOptions) : Image :=
  errorDiffusion (toGrayscale image) burkesKernel 32 opts.serpentine

/-- `diffusionRow(image, opts)`. -/
def diffusionRow (image : Image) (opts : DitherOptions) : Image :=
  errorDiffusion (toGrayscale image) diffusionRowKernel 2 opts.serpentine

/-- `diffusionColumn(image, opts)`. -/
def diffusionColumn (image : Image) (opts : DitherOptions) : Image :=
  errorDiffusion (toGrayscale image) diffusionColumnKernel 2 opts.serpentine

/-- `diffusion2D(image, opts)`. -/
def diffusion2D (image : Image) (opts : DitherOptions) : Image :=
  errorDiffusion (toGrayscale image) diffusion2DKernel 10 opts.serpentine

/-- `jarvisJudiceNinke(image, opts)`. -/
def jarvisJudiceNinke (image : Image) (opts : DitherOptions) : Image :=
  errorDiffusion (toGrayscale image) jarvisJudiceNinkeKernel 48 opts.serpentine

/-- `sierra2(image, opts)`. -/
def sierra2 (image : Image) (opts : DitherOptions) : Image :=
  errorDiffusion (toGrayscale image) sierra2Kernel 12 opts.serpentine

/-- `stucki(image, opts)`. -/
def stucki (image : Image) (opts : DitherOptions) : Image :=
  errorDiffusion (toGrayscale image) stuckiKernel 42 opts.serpentine

/-- The median computation of `threshold(image)` over an already
grayscaled buffer: collect the `w*h` grayscale values, sort ascending
(the comparator `(a, b) => a - b` sorts ascending; on equal values any
sorting algorithm yields the same list), and take the middle element
(odd count) or the mean of the two middle elements (even count). -/
def thresholdMedianOf (w h : ℕ) (d : ℕ → ℚ) : ℚ :=
  let pixelCount := w * h
  let values := List.insertionSort (· ≤ ·) ((List.range pixelCount).map fun p => d (4 * p))
  if pixelCount % 2 = 1 then values.getD (pixelCount / 2) 0
  else (values.getD (pixelCount / 2 - 1) 0 + values.getD (pixelCount / 2) 0) / 2

/-- The median the `threshold` algorithm computes for an image (after its
grayscale pass). -/
def thresholdMedian (image : Image) : ℚ :=
  let g := toGrayscale image
  thresholdMedianOf g.width g.height g.data

/-- `threshold(image)` (second revision of the source): grayscale, then
binarize every pixel against the median luminance. -/
def threshold (image : Image) : Image :=
  let g := toGrayscale image
  let median := thresholdMedianOf g.width g.height g.data
  { g with
    data := pixelScan (fun _ v _ _ => if v < median then 0 else 255)
      (List.range (g.width * g.height)) g.data }

/-- The fixed 4×4 Bayer matrix of `orderedBayer`. -/
def bayerMatrix : List (List ℚ) :=
  [[0, 8, 2, 10], [12, 4, 14, 6], [3, 11, 1, 9], [15, 7, 13, 5]]

/-- Lookup in the Bayer matrix (always used with indices reduced mod 4). -/
def bayerAt (i j : ℕ) : ℚ := (bayerMatrix.getD i []).getD j 0

/-- `orderedBayer(image)`: grayscale, then threshold pixel `(x, y)`
against `(bayerMatrix[y % 4][x % 4] + 0.5) * 255 / 16`. -/
def orderedBayer (image : Image) : Image :=
  let g := toGrayscale image
  let w := g.width
  let scale : ℚ := 255 / (4 * 4)
  { g with
    data := pixelScan
      (fun p v _ _ => if v < (bayerAt ((p / w) % 4) ((p % w) % 4) + (0.5 : ℚ)) * scale then 0 else 255)
      (List.range (g.width * g.height)) g.data }

/-- `randomDither(image)`: per pixel, binarize against
`Math.random() * 255`; the random stream is explicit. -/
def randomDither (image : Image) (rand : ℕ → ℚ) : Image :=
  let g := toGrayscale image
  { g with
    data := pixelScan (fun p v _ _ => if v < rand p * 255 then 0 else 255)
      (List.range (g.width * g.height)) g.data }

/-- `ditherpunk(image)`: add noise `(Math.random() - 0.5) * 128` to each
pixel, then binarize against 128. -/
def ditherpunk (image : Image) (rand : ℕ → ℚ) : Image :=
  let g := toGrayscale image
  { g with
    data := pixelScan
      (fun p v _ _ => if v + (rand p - (0.5 : ℚ)) * 128 < 128 then 0 else 255)
      (List.range (g.width * g.height)) g.data }

/-- The row-major list of cells `(i, j)` of an `N × N` block, in the push
order of `generateEvenTonedMatrix`. -/
def evenTonedCells (N : ℕ) : List (ℕ × ℕ) :=
  (List.range N).flatMap fun i => (List.range N).map fun j => (i, j)

/-- Squared Euclidean distance of cell `(i, j)` to the block center
`((N-1)/2, (N-1)/2)`.  The source compares `Math.sqrt` of these values;
the square root is strictly monotone, so the comparison is equivalent. -/
def cellDistSq (N : ℕ) (c : ℕ × ℕ) : ℚ :=
  ((c.1 : ℚ) - ((N : ℚ) - 1) / 2) ^ 2 + ((c.2 : ℚ) - ((N : ℚ) - 1) / 2) ^ 2

/-- The total order of the comparator
`(a, b) => a.dist - b.dist || a.i - b.i || a.j - b.j`: by distance,
ties broken by row index, then column index. -/
def cellLE (N : ℕ) (a b : ℕ × ℕ) : Prop :=
  cellDistSq N a < cellDistSq N b ∨
    (cellDistSq N a = cellDistSq N b ∧ (a.1 < b.1 ∨ (a.1 = b.1 ∧ a.2 ≤ b.2)))

instance cellLE.decidableRel (N : ℕ) : DecidableRel (cellLE N) := fun a b => by
  unfold cellLE; infer_instance

/-- The cell list of the `N × N` block sorted by the comparator of
`generateEvenTonedMatrix` (ascending distance to the center, ties broken
by row then column). -/
def sortedCells (N : ℕ) : List (ℕ × ℕ) :=
  List.insertionSort (cellLE N) (evenTonedCells N)

/-- `generateEvenTonedMatrix(N)`: assign rank `k` to the cell at sort
position `k`; the matrix starts as all zeros (`Array(N).fill(0)`). -/
def generateEvenTonedMatrix (N : ℕ) : ℕ → ℕ → ℕ :=
  (sortedCells N).enum.foldl
    (fun m kc => fun a b => if a = kc.2.1 ∧ b = kc.2.2 then kc.1 else m a b)
    (fun _ _ => 0)

/-- `evenTonedScreening(image, opts)`: grayscale, then threshold pixel
`(x, y)` against `(matrix[y % N][x % N] + 0.5) * 255 / (N² - 1)`. -/
def evenTonedScreening (image : Image) (opts : DitherOptions) : Image :=
  let g := toGrayscale image
  let matrixSize := jsOrNat opts.matrixSize 8
  let m := generateEvenTonedMatrix matrixSize
  let numCells := matrixSize * matrixSize
  let scale : ℚ := 255 / ((numCells : ℚ) - 1)
  let w := g.width
  { g with
    data := pixelScan
      (fun p v _ _ =>
        if v < ((m ((p / w) % matrixSize) ((p % w) % matrixSize) : ℚ) + (0.5 : ℚ)) * scale
        then 0 else 255)
      (List.range (g.width * g.height)) g.data }

/-- One iteration of the `simpleEvenTonedScreening` pixel loop at column
`x` of row `y`.  State: `(data, curRow, nextRow)`. -/
def setsPix (w h y : ℕ) (st : (ℕ → ℚ) × (ℕ → ℚ) × (ℕ → ℚ)) (x : ℕ) :
    (ℕ → ℚ) × (ℕ → ℚ) × (ℕ → ℚ) :=
  let d := st.1
  let curRow := st.2.1
  let nextRow := st.2.2
  let idx := (y * w + x) * 4
  let value := d idx + curRow x
  let threshold := clamp (128 + curRow x * (0.25 : ℚ))
  let newPixel : ℚ := if value < threshold then 0 else 255
  let error := value - newPixel
  let d1 := update3 d idx newPixel
  let curRow1 := if x + 1 < w then updFn curRow (x + 1) (curRow (x + 1) + error * (7 / 16)) else curRow
  let nextRow1 :=
    if y + 1 < h then
      let n1 := updFn nextRow x (nextRow x + error * (5 / 16))
      if x + 1 < w then updFn n1 (x + 1) (n1 (x + 1) + error * (1 / 16)) else n1
    else nextRow
  (d1, curRow1, nextRow1)

/-- `simpleEvenTonedScreening(image)`: per-row error buffers bias the
threshold (`128 + curRow[x] * 0.25`, clamped); errors diffuse with the
7/16, 5/16, 1/16 forward weights; at each row end the next-row buffer
becomes current and the next-row buffer is reset to zeros. -/
def simpleEvenTonedScreening (image : Image) : Image :=
  let g := toGrayscale image
  let w := g.width
  let h := g.height
  let final :=
    (List.range h).foldl
      (fun st y =>
        let r := (List.range w).foldl (setsPix w h y) (st.1, st.2, fun _ => 0)
        (r.1, r.2.2))
      (g.data, fun _ => (0 : ℚ))
  { g with data := final.1 }

set_option linter.unusedVariables false in
/-- `generateDefaultTM(width, height)`: pseudo-random modulation entries
`Math.floor(Math.random() * 41) - 20`; the entry at `(y, x)` consumes the
`y * width + x`-th output of the random stream.  (`height` only bounds the
generation loop in the source; the function model needs no bound.) -/
def generateDefaultTM (width height : ℕ) (rand : ℕ → ℚ) : ℕ → ℕ → ℚ :=
  fun y x => ((⌊rand (y * width + x) * 41⌋ : ℤ) : ℚ) - 20

/-- One iteration of the `evenBetterScreening` pixel loop at column `x`
of row `y`.  State: `(data, errorBuffer, nextError)`. -/
def ebsPix (w h tmheight tmwid : ℕ) (tmmat : ℕ → ℕ → ℚ) (y : ℕ)
    (st : (ℕ → ℚ) × (ℕ → ℚ) × (ℕ → ℚ)) (x : ℕ) :
    (ℕ → ℚ) × (ℕ → ℚ) × (ℕ → ℚ) :=
  let d := st.1
  let errorBuffer := st.2.1
  let nextError := st.2.2
  let idx := (y * w + x) * 4
  let value := d idx + errorBuffer x
  let mod := tmmat (y % tmheight) (x % tmwid)
  let threshold := clamp (128 + mod)
  let newPixel : ℚ := if value < threshold then 0 else 255
  let error := value - newPixel
  let d1 := update3 d idx newPixel
  let errorBuffer1 :=
    if x + 1 < w then updFn errorBuffer (x + 1) (errorBuffer (x + 1) + error * (7 / 16))
    else errorBuffer
  let nextError1 :=
    if y + 1 < h then
      let n1 := updFn nextError x (nextError x + error * (5 / 16))
      if x + 1 < w then updFn n1 (x + 1) (n1 (x + 1) + error * (1 / 16)) else n1
    else nextError
  (d1, errorBuffer1, nextError1)

/-- `evenBetterScreening(image, opts)`: threshold modulation
`clamp(128 + TM[y % tmheight][x % tmwid])` plus forward Floyd-Steinberg
error diffusion through per-row error buffers.  (The source also binds
`levels = opts.levels || 2` but never uses it.) -/
def evenBetterScreening (image : Image) (opts : DitherOptions) : Image :=
  let g := toGrayscale image
  let tmwid := jsOrNat opts.tmwid 256
  let tmheight := jsOrNat opts.tmheight 256
  let tmmat :=
    match opts.tmmat with
    | some m => m
    | none => generateDefaultTM tmwid tmheight opts.rand
  let final :=
    (List.range g.height).foldl
      (fun st y =>
        let r := (List.range g.width).foldl (ebsPix g.width g.height tmheight tmwid tmmat y)
          (st.1, st.2, fun _ => 0)
        (r.1, r.2.2))
      (g.data, fun _ => (0 : ℚ))
  { g with data := final.1 }

/-- The value of `ALGORITHMS.CUSTOM`: the entry is commented out in the
source, so reading the property yields `undefined`. -/
def ALGORITHMS_CUSTOM : Option String := none

/-- The string values actually present in the `ALGORITHMS` object of the
source (the `CUSTOM` entry is commented out). -/
def recognizedTags : List String :=
  ["FLOYD_STEINBERG", "ATKINSON", "THRESHOLD", "BURKES", "DIFFUSION_ROW",
    "DIFFUSION_COLUMN", "DIFFUSION_2D", "JARVIS_JUDICE_NINKE", "SIERRA2", "STUCKI",
    "GRAYSCALE", "ORDERED_BAYER", "RANDOM", "DITHERPUNK", "EVEN_TONED_SCREENING",
    "SIMPLE_EVEN_TONED_SCREENING", "EVEN_BETTER_SCREENING"]

/-- Failure conditions of `dither` (both are `throw new Error(...)` in the
source). -/
inductive DitherError where
  | unknownAlgorithm (tag : Option String)
  | missingCustomHandler
  deriving DecidableEq

/-- `dither(image, algorithm, options)`: the dispatcher switch.  A
JavaScript switch compares the scrutinee against each case label value in
turn; the label of the `CUSTOM` case is `ALGORITHMS.CUSTOM`, which
evaluates to `undefined` (modelled as `none`). -/
def dither (image : Image) (algorithm : Option String) (opts : DitherOptions) :
    Except DitherError Image :=
  if algorithm = some "FLOYD_STEINBERG" then .ok (floydSteinberg image opts)
  else if algorithm = some "ATKINSON" then .ok (atkinson image opts)
  else if algorithm = some "THRESHOLD" then .ok (threshold image)
  else if algorithm = some "BURKES" then .ok (burkes image opts)
  else if algorithm = some "DIFFUSION_ROW" then .ok (diffusionRow image opts)
  else if algorithm = some "DIFFUSION_COLUMN" then .ok (diffusionColumn image opts)
  else if algorithm = some "DIFFUSION_2D" then .ok (diffusion2D image opts)
  else if algorithm = some "JARVIS_JUDICE_NINKE" then .ok (jarvisJudiceNinke image opts)
  else if algorithm = some "SIERRA2" then .ok (sierra2 image opts)
  else if algorithm = some "STUCKI" then .ok (stucki image opts)
  else if algorithm = ALGORITHMS_CUSTOM then
    match opts.custom with
    | some f => .ok (f image)
    | none => .error .missingCustomHandler
  else if algorithm = some "GRAYSCALE" then .ok (toGrayscale image)
  else if algorithm = some "ORDERED_BAYER" then .ok (orderedBayer image)
  else if algorithm = some "RANDOM" then .ok (randomDither image opts.rand)
  else if algorithm = some "DITHERPUNK" then .ok (ditherpunk image opts.rand)
  else if algorithm = some "EVEN_TONED_SCREENING" then .ok (evenTonedScreening image opts)
  else if algorithm = some "SIMPLE_EVEN_TONED_SCREENING" then
    .ok (simpleEvenTonedScreening image)
  else if algorithm = some "EVEN_BETTER_SCREENING" then .ok (evenBetterScreening image opts)
  else .error (.unknownAlgorithm algorithm)

/-! ## Generic facts about buffer-mutating folds -/

theorem update3_apply_of_ne {d : ℕ → ℚ} {idx v : _} {i : ℕ}
    (h1 : i ≠ idx) (h2 : i ≠ idx + 1) (h3 : i ≠ idx + 2) :
    update3 d idx v i = d i := by
  simp [update3, h1, h2, h3]

theorem update3_apply_left {d : ℕ → ℚ} {idx : ℕ} {v : ℚ} :
    update3 d idx v idx = v := by simp [update3]

theorem update3_apply_mid {d : ℕ → ℚ} {idx : ℕ} {v : ℚ} :
    update3 d idx v (idx + 1) = v := by simp [update3]

theorem update3_apply_right {d : ℕ → ℚ} {idx : ℕ} {v : ℚ} :
    update3 d idx v (idx + 2) = v := by simp [update3]

/-- Generic preservation for folds over a mutable state with a buffer
projection `π`: an index that no step of the list writes keeps its value. -/
theorem foldl_pres {σ α : Type} (π : σ → ℕ → ℚ) (step : σ → α → σ) (W : α → ℕ → Prop)
    (hstep : ∀ st a i, W a i → π (step st a) i = π st i) :
    ∀ (L : List α) (st : σ) (i : ℕ), (∀ a ∈ L, W a i) → π (L.foldl step st) i = π st i := by
  intro L
  induction L with
  | nil => intro st i _; rfl
  | cons a L ih =>
    intro st i hW
    rw [List.foldl_cons, ih _ _ fun b hb => hW b (List.mem_cons_of_mem _ hb),
      hstep _ _ _ (hW a (List.mem_cons_self _ _))]

theorem pixelScan_apply_of_forall {f : ℕ → ℚ → ℚ → ℚ → ℚ} {ps : List ℕ} {d : ℕ → ℚ} {i : ℕ}
    (h : ∀ p ∈ ps, i ≠ 4 * p ∧ i ≠ 4 * p + 1 ∧ i ≠ 4 * p + 2) :
    pixelScan f ps d i = d i := by
  refine foldl_pres (fun d => d)
    (fun dd p => update3 dd (4 * p) (f p (dd (4 * p)) (dd (4 * p + 1)) (dd (4 * p + 2))))
    (fun p i => i ≠ 4 * p ∧ i ≠ 4 * p + 1 ∧ i ≠ 4 * p + 2) ?_ ps d i h
  intro st a i hi
  exact update3_apply_of_ne hi.1 hi.2.1 hi.2.2

/-- A pointwise pass does not touch the alpha channel. -/
theorem pixelScan_alpha {f : ℕ → ℚ → ℚ → ℚ → ℚ} {ps : List ℕ} {d : ℕ → ℚ} {i : ℕ}
    (h : i % 4 = 3) : pixelScan f ps d i = d i :=
  pixelScan_apply_of_forall fun p _ => by omega

theorem pixelScan_nil {f : ℕ → ℚ → ℚ → ℚ → ℚ} {d : ℕ → ℚ} : pixelScan f [] d = d := rfl

theorem pixelScan_cons {f : ℕ → ℚ → ℚ → ℚ → ℚ} {q : ℕ} {qs : List ℕ} {d : ℕ → ℚ} :
    pixelScan f (q :: qs) d =
      pixelScan f qs (update3 d (4 * q) (f q (d (4 * q)) (d (4 * q + 1)) (d (4 * q + 2)))) := rfl

/-- Characterization of a pointwise pass on the channels of a listed
pixel: each of R, G, B receives `f p R₀ G₀ B₀` of the original values. -/
theorem pixelScan_channel {f : ℕ → ℚ → ℚ → ℚ → ℚ} {ps : List ℕ} (hnd : ps.Nodup)
    {d : ℕ → ℚ} {p : ℕ} (hp : p ∈ ps) {c : ℕ} (hc : c < 3) :
    pixelScan f ps d (4 * p + c) = f p (d (4 * p)) (d (4 * p + 1)) (d (4 * p + 2)) := by
  induction ps generalizing d with
  | nil => cases hp
  | cons q qs ih =>
    have hq : q ∉ qs := (List.nodup_cons.mp hnd).1
    rw [pixelScan_cons]
    rcases List.mem_cons.mp hp with h | hp2
    · subst h
      have hpres : pixelScan f qs
          (update3 d (4 * p) (f p (d (4 * p)) (d (4 * p + 1)) (d (4 * p + 2)))) (4 * p + c) =
          update3 d (4 * p) (f p (d (4 * p)) (d (4 * p + 1)) (d (4 * p + 2))) (4 * p + c) := by
        refine pixelScan_apply_of_forall fun r hr => ?_
        have : p ≠ r := fun h => hq (h ▸ hr)
        omega
      rw [hpres]
      simp only [update3]
      have hin : 4 * p + c = 4 * p ∨ 4 * p + c = 4 * p + 1 ∨ 4 * p + c = 4 * p + 2 := by omega
      rw [if_pos hin]
    · have hpq : p ≠ q := fun h => hq (h ▸ hp2)
      rw [ih (List.nodup_cons.mp hnd).2 hp2,
        update3_apply_of_ne (by omega) (by omega) (by omega),
        update3_apply_of_ne (by omega) (by omega) (by omega),
        update3_apply_of_ne (by omega) (by omega) (by omega)]

/-! ## The binary output contract -/

/-- Pixel `p` of buffer `d` is binarized: equal R, G, B channels whose
common value is 0 or 255. -/
def binaryPixel (d : ℕ → ℚ) (p : ℕ) : Prop :=
  d (4 * p) = d (4 * p + 1) ∧ d (4 * p + 1) = d (4 * p + 2) ∧
    (d (4 * p) = 0 ∨ d (4 * p) = 255)

/-- The output contract of the engine for the binarizing algorithms:
same dimensions, every pixel binarized, every alpha byte bit-identical
to its pre-call value. -/
def binaryInvariant (orig out : Image) : Prop :=
  out.width = orig.width ∧ out.height = orig.height ∧
    (∀ p, p < orig.width * orig.height → binaryPixel out.data p) ∧
    (∀ p, p < orig.width * orig.height → out.data (4 * p + 3) = orig.data (4 * p + 3))

/-- A pointwise pass whose update function only produces 0 or 255
binarizes every listed pixel. -/
theorem pixelScan_binaryPixel {f : ℕ → ℚ → ℚ → ℚ → ℚ}
    (hf : ∀ p a b c, f p a b c = 0 ∨ f p a b c = 255) {ps : List ℕ} (hnd : ps.Nodup)
    {d : ℕ → ℚ} {p : ℕ} (hp : p ∈ ps) : binaryPixel (pixelScan f ps d) p := by
  have h0 := pixelScan_channel (f := f) hnd (d := d) hp (c := 0) (by omega)
  have h1 := pixelScan_channel (f := f) hnd (d := d) hp (c := 1) (by omega)
  have h2 := pixelScan_channel (f := f) hnd (d := d) hp (c := 2) (by omega)
  rw [Nat.add_zero] at h0
  exact ⟨h0.trans h1.symm, h1.trans h2.symm, h0 ▸ hf p _ _ _⟩

/-! ## Claim C1: energy conservation of the diffusion kernels -/

/-- Counterexample to claim C1 as stated: the Atkinson kernel weights sum
to 6, not its divisor 8, and the Sierra2 kernel weights sum to 20, not
its divisor 12. -/
theorem c1_counterexample_kernel_sums :
    (atkinsonKernel.map fun e => e.2.2).sum = 6 ∧ ((6 : ℚ) ≠ 8) ∧
    (sierra2Kernel.map fun e => e.2.2).sum = 20 ∧ ((20 : ℚ) ≠ 12) := by
  refine ⟨?_, by norm_num, ?_, by norm_num⟩ <;> norm_num [atkinsonKernel, sierra2Kernel]

/-- Claim C1, amended: the kernel weight sum equals the divisor for
Floyd-Steinberg (16), Burkes (32), Diffusion-Row (2), Diffusion-Column
(2), Diffusion-2D (10), Jarvis-Judice-Ninke (48) and Stucki (42); but the
Atkinson kernel sums to 6 against divisor 8 (the classical Atkinson
design diffuses only 6/8 of the error), and the Sierra2 kernel sums to
20 against divisor 12. -/
theorem c1_kernel_weight_sums :
    (floydSteinbergKernel.map fun e => e.2.2).sum = 16 ∧
    (atkinsonKernel.map fun e => e.2.2).sum = 6 ∧
    (burkesKernel.map fun e => e.2.2).sum = 32 ∧
    (diffusionRowKernel.map fun e => e.2.2).sum = 2 ∧
    (diffusionColumnKernel.map fun e => e.2.2).sum = 2 ∧
    (diffusion2DKernel.map fun e => e.2.2).sum = 10 ∧
    (jarvisJudiceNinkeKernel.map fun e => e.2.2).sum = 48 ∧
    (sierra2Kernel.map fun e => e.2.2).sum = 20 ∧
    (stuckiKernel.map fun e => e.2.2).sum = 42 := by
  refine ⟨?_, ?_, ?_, ?_, ?_, ?_, ?_, ?_, ?_⟩ <;>
    norm_num [floydSteinbergKernel, atkinsonKernel, burkesKernel, diffusionRowKernel,
      diffusionColumnKernel, diffusion2DKernel, jarvisJudiceNinkeKernel, sierra2Kernel,
      stuckiKernel]

/-! ## Claim C5: median thresholding on the 2×2 test image -/

theorem range_four : List.range 4 = [0, 1, 2, 3] := by decide

theorem toGrayscale_width (image : Image) : (toGrayscale image).width = image.width := rfl

theorem toGrayscale_height (image : Image) : (toGrayscale image).height = image.height := rfl

/-- The data buffer produced by `threshold`, exposed for reasoning. -/
theorem threshold_data (image : Image) :
    (threshold image).data =
      pixelScan
        (fun _ v _ _ =>
          if v < thresholdMedianOf (toGrayscale image).width (toGrayscale image).height
              (toGrayscale image).data
          then 0 else 255)
        (List.range ((toGrayscale image).width * (toGrayscale image).height))
        (toGrayscale image).data := rfl

/-- The 2×2 test image of the specification: two pixels of luminance 10
and two of luminance 250 (grayscale pixels), with varied alpha bytes. -/
def medianTestImage : Image where
  width := 2
  height := 2
  data := fun i =>
    [10, 10, 10, 255, 10, 10, 10, 255, 250, 250, 250, 255, 250, 250, 250, 0].getD i 0

theorem medianTestImage_gray_channel :
    (toGrayscale medianTestImage).data 0 = 10 ∧
    (toGrayscale medianTestImage).data 4 = 10 ∧
    (toGrayscale medianTestImage).data 8 = 250 ∧
    (toGrayscale medianTestImage).data 12 = 250 := by
  have h := fun (p : ℕ) (hp : p ∈ List.range (2 * 2)) =>
    pixelScan_channel (f := fun _ r g b => lum r g b) (List.nodup_range _)
      (d := medianTestImage.data) hp (c := 0) (by omega)
  refine ⟨?_, ?_, ?_, ?_⟩
  · have := h 0 (by decide); rw [show (4 * 0 + 0 : ℕ) = 0 from rfl] at this
    rw [show (toGrayscale medianTestImage).data 0 =
      pixelScan (fun _ r g b => lum r g b) (List.range (2 * 2)) medianTestImage.data 0 from rfl,
      this]
    norm_num [medianTestImage, lum, List.getD]
  · have := h 1 (by decide); rw [show (4 * 1 + 0 : ℕ) = 4 from rfl] at this
    rw [show (toGrayscale medianTestImage).data 4 =
      pixelScan (fun _ r g b => lum r g b) (List.range (2 * 2)) medianTestImage.data 4 from rfl,
      this]
    norm_num [medianTestImage, lum, List.getD]
  · have := h 2 (by decide); rw [show (4 * 2 + 0 : ℕ) = 8 from rfl] at this
    rw [show (toGrayscale medianTestImage).data 8 =
      pixelScan (fun _ r g b => lum r g b) (List.range (2 * 2)) medianTestImage.data 8 from rfl,
      this]
    norm_num [medianTestImage, lum, List.getD]
  · have := h 3 (by decide); rw [show (4 * 3 + 0 : ℕ) = 12 from rfl] at this
    rw [show (toGrayscale medianTestImage).data 12 =
      pixelScan (fun _ r g b => lum r g b) (List.range (2 * 2)) medianTestImage.data 12 from rfl,
      this]
    norm_num [medianTestImage, lum, List.getD]

theorem medianTestImage_gray_alpha :
    (toGrayscale medianTestImage).data 3 = 255 ∧
    (toGrayscale medianTestImage).data 7 = 255 ∧
    (toGrayscale medianTestImage).data 11 = 255 ∧
    (toGrayscale medianTestImage).data 15 = 0 := by
  refine ⟨?_, ?_, ?_, ?_⟩ <;>
    · rw [show (toGrayscale medianTestImage).data =
        pixelScan (fun _ r g b => lum r g b) (List.range (2 * 2)) medianTestImage.data from rfl,
        pixelScan_alpha (by norm_num)]
      norm_num [medianTestImage, List.getD]

theorem medianTestImage_median :
    thresholdMedianOf 2 2 (toGrayscale medianTestImage).data = 130 := by
  obtain ⟨h0, h4, h8, h12⟩ := medianTestImage_gray_channel
  norm_num [thresholdMedianOf, range_four, List.insertionSort, List.orderedInsert,
    h0, h4, h8, h12, List.getD]

/-- Claim C5: `threshold` computes the adaptive median of the sorted
luminances — for a 2×2 image with luminances [10, 10, 250, 250] (even
count) the median is (10 + 250)/2 = 130 — and binarizes every pixel
against it: the two low pixels become 0, the two high pixels 255, and
the alpha bytes are untouched. -/
theorem c5_threshold_median :
    thresholdMedian medianTestImage = 130 ∧
    (threshold medianTestImage).data 0 = 0 ∧
    (threshold medianTestImage).data 1 = 0 ∧
    (threshold medianTestImage).data 2 = 0 ∧
    (threshold medianTestImage).data 3 = 255 ∧
    (threshold medianTestImage).data 4 = 0 ∧
    (threshold medianTestImage).data 5 = 0 ∧
    (threshold medianTestImage).data 6 = 0 ∧
    (threshold medianTestImage).data 7 = 255 ∧
    (threshold medianTestImage).data 8 = 255 ∧
    (threshold medianTestImage).data 9 = 255 ∧
    (threshold medianTestImage).data 10 = 255 ∧
    (threshold medianTestImage).data 11 = 255 ∧
    (threshold medianTestImage).data 12 = 255 ∧
    (threshold medianTestImage).data 13 = 255 ∧
    (threshold medianTestImage).data 14 = 255 ∧
    (threshold medianTestImage).data 15 = 0 := by
  obtain ⟨h0, h4, h8, h12⟩ := medianTestImage_gray_channel
  obtain ⟨a3, a7, a11, a15⟩ := medianTestImage_gray_alpha
  have hkey : ∀ p c, p < 4 → c < 3 →
      (threshold medianTestImage).data (4 * p + c) =
        if (toGrayscale medianTestImage).data (4 * p) < 130 then 0 else 255 := by
    intro p c hp hc
    rw [threshold_data, pixelScan_channel (List.nodup_range _)
      (List.mem_range.mpr (by simpa [toGrayscale_width, toGrayscale_height,
        medianTestImage] using hp)) hc]
    rw [toGrayscale_width, toGrayscale_height,
      show medianTestImage.width = 2 from rfl, show medianTestImage.height = 2 from rfl,
      medianTestImage_median]
  have halpha : ∀ p, p < 4 → (threshold medianTestImage).data (4 * p + 3) =
      (toGrayscale medianTestImage).data (4 * p + 3) := by
    intro p hp
    rw [threshold_data, pixelScan_alpha (by omega)]
  refine ⟨?_, ?_, ?_, ?_, ?_, ?_, ?_, ?_, ?_, ?_, ?_, ?_, ?_, ?_, ?_, ?_, ?_⟩
  · rw [thresholdMedian, toGrayscale_width, toGrayscale_height,
      show medianTestImage.width = 2 from rfl, show medianTestImage.height = 2 from rfl,
      medianTestImage_median]
  · have := hkey 0 0 (by omega) (by omega); rw [show (4*0+0 : ℕ) = 0 from rfl] at this
    rw [this, h0]; norm_num
  · have := hkey 0 1 (by omega) (by omega); rw [show (4*0+1 : ℕ) = 1 from rfl] at this
    rw [this, show (4*0 : ℕ) = 0 from rfl, h0]; norm_num
  · have := hkey 0 2 (by omega) (by omega); rw [show (4*0+2 : ℕ) = 2 from rfl] at this
    rw [this, show (4*0 : ℕ) = 0 from rfl, h0]; norm_num
  · have := halpha 0 (by omega); rw [show (4*0+3 : ℕ) = 3 from rfl] at this
    rw [this, a3]
  · have := hkey 1 0 (by omega) (by omega); rw [show (4*1+0 : ℕ) = 4 from rfl] at this
    rw [this, show (4*1 : ℕ) = 4 from rfl, h4]; norm_num
  · have := hkey 1 1 (by omega) (by omega); rw [show (4*1+1 : ℕ) = 5 from rfl] at this
    rw [this, show (4*1 : ℕ) = 4 from rfl, h4]; norm_num
  · have := hkey 1 2 (by omega) (by omega); rw [show (4*1+2 : ℕ) = 6 from rfl] at this
    rw [this, show (4*1 : ℕ) = 4 from rfl, h4]; norm_num
  · have := halpha 1 (by omega); rw [show (4*1+3 : ℕ) = 7 from rfl] at this
    rw [this, a7]
  · have := hkey 2 0 (by omega) (by omega); rw [show (4*2+0 : ℕ) = 8 from rfl] at this
    rw [this, show (4*2 : ℕ) = 8 from rfl, h8]; norm_num
  · have := hkey 2 1 (by omega) (by omega); rw [show (4*2+1 : ℕ) = 9 from rfl] at this
    rw [this, show (4*2 : ℕ) = 8 from rfl, h8]; norm_num
  · have := hkey 2 2 (by omega) (by omega); rw [show (4*2+2 : ℕ) = 10 from rfl] at this
    rw [this, show (4*2 : ℕ) = 8 from rfl, h8]; norm_num
  · have := halpha 2 (by omega); rw [show (4*2+3 : ℕ) = 11 from rfl] at this
    rw [this, a11]
  · have := hkey 3 0 (by omega) (by omega); rw [show (4*3+0 : ℕ) = 12 from rfl] at this
    rw [this, show (4*3 : ℕ) = 12 from rfl, h12]; norm_num
  · have := hkey 3 1 (by omega) (by omega); rw [show (4*3+1 : ℕ) = 13 from rfl] at this
    rw [this, show (4*3 : ℕ) = 12 from rfl, h12]; norm_num
  · have := hkey 3 2 (by omega) (by omega); rw [show (4*3+2 : ℕ) = 14 from rfl] at this
    rw [this, show (4*3 : ℕ) = 12 from rfl, h12]; norm_num
  · have := halpha 3 (by omega); rw [show (4*3+3 : ℕ) = 15 from rfl] at this
    rw [this, a15]

/-! ## Scan-order machinery for error diffusion

Every kernel entry of the source points forward in scan order (later
column of the same row, or a later row).  Ranking positions by scan
order shows that once a pixel has been binarized, no later step of the
pass ever writes to it again. -/

/-- Position of `pos` in the traversal order of `errorDiffusion`:
row-major, with the column index flipped on reversed serpentine rows. -/
def rank (w : ℕ) (serp : Bool) (pos : ℕ × ℕ) : ℕ :=
  pos.2 * w + (if serp && pos.2 % 2 == 1 then w - 1 - pos.1 else pos.1)

/-- A kernel is forward-facing: every entry points to a later row, or to
a later column of the same row. -/
def kernelFwd (K : List (ℤ × ℤ × ℚ)) : Prop :=
  ∀ e ∈ K, 0 < e.2.1 ∨ (e.2.1 = 0 ∧ 0 < e.1)

instance : DecidablePred kernelFwd := fun K => by unfold kernelFwd; infer_instance

theorem addError_pres {w h : ℕ} {d : ℕ → ℚ} {x y : ℤ} {er fa : ℚ} {i : ℕ}
    (hi : 0 ≤ x → x < (w : ℤ) → 0 ≤ y → y < (h : ℤ) →
      i ≠ (y.toNat * w + x.toNat) * 4 ∧ i ≠ (y.toNat * w + x.toNat) * 4 + 1 ∧
        i ≠ (y.toNat * w + x.toNat) * 4 + 2) :
    addError w h d x y er fa i = d i := by
  unfold addError
  split
  · rfl
  · rename_i hb
    push_neg at hb
    obtain ⟨h1, h2, h3, h4⟩ := hb
    obtain ⟨n1, n2, n3⟩ := hi h1 h2 h3 h4
    exact update3_apply_of_ne n1 n2 n3

set_option linter.unusedVariables false in
/-- Forward kernel entries target strictly later scan positions. -/
theorem rank_lt_target {w h : ℕ} {serp : Bool} {x y : ℕ} (hx : x < w)
    {dx dy : ℤ} (he : 0 < dy ∨ (dy = 0 ∧ 0 < dx)) {tx ty : ℤ}
    (htx : tx = (x : ℤ) + (if serp && y % 2 == 1 then -dx else dx))
    (hty : ty = (y : ℤ) + dy)
    (h1 : 0 ≤ tx) (h2 : tx < (w : ℤ)) (h3 : 0 ≤ ty) (h4 : ty < (h : ℤ)) :
    rank w serp (x, y) < rank w serp (tx.toNat, ty.toNat) := by
  rcases he with hdy | ⟨hdy, hdx⟩
  · have hb1 : rank w serp (x, y) < (y + 1) * w := by
      have hd : (y + 1) * w = y * w + w := by ring
      unfold rank
      by_cases hc : (serp && y % 2 == 1) = true <;> simp [hc] <;> omega
    have hb2 : ty.toNat * w ≤ rank w serp (tx.toNat, ty.toNat) := by
      unfold rank
      by_cases hc : (serp && ty.toNat % 2 == 1) = true <;> simp [hc]
    have hmul : (y + 1) * w ≤ ty.toNat * w :=
      Nat.mul_le_mul_right _ (by omega)
    exact lt_of_lt_of_le hb1 (le_trans hmul hb2)
  · have hyt : ty.toNat = y := by omega
    unfold rank
    simp only [hyt]
    by_cases hc : (serp && y % 2 == 1) = true <;> simp [hc] at htx ⊢ <;> omega

/-- A diffusion step at `pos` only writes colour channels of pixels at
scan rank at least that of `pos`; any other index is untouched. -/
theorem diffuseStep_pres {w h : ℕ} {K : List (ℤ × ℤ × ℚ)} {dv : ℚ} {serp : Bool}
    (hK : kernelFwd K) {d : ℕ → ℚ} {pos : ℕ × ℕ} (hx : pos.1 < w) (hy : pos.2 < h) {i : ℕ}
    (hi : ∀ t : ℕ × ℕ, t.1 < w → t.2 < h → rank w serp pos ≤ rank w serp t →
      i ≠ (t.2 * w + t.1) * 4 ∧ i ≠ (t.2 * w + t.1) * 4 + 1 ∧
        i ≠ (t.2 * w + t.1) * 4 + 2) :
    diffuseStep w h K dv serp d pos i = d i := by
  simp only [diffuseStep]
  refine Eq.trans
    (foldl_pres (fun s : ℕ → ℚ => s) _
      (fun e j =>
        0 ≤ (pos.1 : ℤ) + (if serp && pos.2 % 2 == 1 then -e.1 else e.1) →
        (pos.1 : ℤ) + (if serp && pos.2 % 2 == 1 then -e.1 else e.1) < (w : ℤ) →
        0 ≤ (pos.2 : ℤ) + e.2.1 → (pos.2 : ℤ) + e.2.1 < (h : ℤ) →
        j ≠ ((((pos.2 : ℤ) + e.2.1).toNat * w +
              ((pos.1 : ℤ) + (if serp && pos.2 % 2 == 1 then -e.1 else e.1)).toNat) * 4) ∧
        j ≠ ((((pos.2 : ℤ) + e.2.1).toNat * w +
              ((pos.1 : ℤ) + (if serp && pos.2 % 2 == 1 then -e.1 else e.1)).toNat) * 4) + 1 ∧
        j ≠ ((((pos.2 : ℤ) + e.2.1).toNat * w +
              ((pos.1 : ℤ) + (if serp && pos.2 % 2 == 1 then -e.1 else e.1)).toNat) * 4) + 2)
      (fun st e j hW => addError_pres hW) K _ i ?_) ?_
  · intro e he
    intro hb1 hb2 hb3 hb4
    set tx := (pos.1 : ℤ) + (if serp && pos.2 % 2 == 1 then -e.1 else e.1) with htx
    set ty := (pos.2 : ℤ) + e.2.1 with hty
    exact hi (tx.toNat, ty.toNat) (by omega) (by omega)
      (le_of_lt (rank_lt_target hx (hK e he) htx hty hb1 hb2 hb3 hb4))
  · have hown := hi pos hx hy (le_refl _)
    exact update3_apply_of_ne hown.1 hown.2.1 hown.2.2

/-- Row-major pixel ids are injective for columns inside the row width. -/
theorem pid_inj {w a b c d : ℕ} (hb : b < w) (hd : d < w) (hEq : a * w + b = c * w + d) :
    a = c ∧ b = d := by
  have hac : a = c := by
    rcases Nat.lt_trichotomy a c with h | h | h
    · exfalso
      have h1 : (a + 1) * w ≤ c * w := Nat.mul_le_mul_right _ h
      have h2 : (a + 1) * w = a * w + w := by ring
      omega
    · exact h
    · exfalso
      have h1 : (c + 1) * w ≤ a * w := Nat.mul_le_mul_right _ h
      have h2 : (c + 1) * w = c * w + w := by ring
      omega
  subst hac
  omega

/-- Colour-channel indices of distinct raster positions never collide. -/
theorem pid_channels_ne {w : ℕ} {serp : Bool} {t p : ℕ × ℕ} (ht : t.1 < w) (hp : p.1 < w)
    (hrank : rank w serp p < rank w serp t) {j c : ℕ} (hc : c < 3)
    (hj : j = 4 * (p.2 * w + p.1) + c) :
    j ≠ (t.2 * w + t.1) * 4 ∧ j ≠ (t.2 * w + t.1) * 4 + 1 ∧ j ≠ (t.2 * w + t.1) * 4 + 2 := by
  have hne2 : t.2 * w + t.1 ≠ p.2 * w + p.1 := by
    intro hEq
    obtain ⟨h1, h2⟩ := pid_inj ht hp hEq
    have : rank w serp t = rank w serp p := by unfold rank; rw [h1, h2]
    omega
  omega

set_option linter.unusedVariables false in
/-- The value a diffusion step writes into the three colour channels of
its own pixel is the binary quantization of the pixel. -/
theorem diffuseStep_channel {w h : ℕ} {K : List (ℤ × ℤ × ℚ)} {dv : ℚ} {serp : Bool}
    (hK : kernelFwd K) {d : ℕ → ℚ} {pos : ℕ × ℕ} (hx : pos.1 < w) (hy : pos.2 < h)
    {c : ℕ} (hc : c < 3) :
    diffuseStep w h K dv serp d pos ((pos.2 * w + pos.1) * 4 + c) =
      (if d ((pos.2 * w + pos.1) * 4) < 128 then (0 : ℚ) else 255) := by
  simp only [diffuseStep]
  refine Eq.trans
    (foldl_pres (fun s : ℕ → ℚ => s) _
      (fun e j =>
        0 ≤ (pos.1 : ℤ) + (if serp && pos.2 % 2 == 1 then -e.1 else e.1) →
        (pos.1 : ℤ) + (if serp && pos.2 % 2 == 1 then -e.1 else e.1) < (w : ℤ) →
        0 ≤ (pos.2 : ℤ) + e.2.1 → (pos.2 : ℤ) + e.2.1 < (h : ℤ) →
        j ≠ ((((pos.2 : ℤ) + e.2.1).toNat * w +
              ((pos.1 : ℤ) + (if serp && pos.2 % 2 == 1 then -e.1 else e.1)).toNat) * 4) ∧
        j ≠ ((((pos.2 : ℤ) + e.2.1).toNat * w +
              ((pos.1 : ℤ) + (if serp && pos.2 % 2 == 1 then -e.1 else e.1)).toNat) * 4) + 1 ∧
        j ≠ ((((pos.2 : ℤ) + e.2.1).toNat * w +
              ((pos.1 : ℤ) + (if serp && pos.2 % 2 == 1 then -e.1 else e.1)).toNat) * 4) + 2)
      (fun st e j hW => addError_pres hW) K _ _ ?_) ?_
  · intro e he
    intro hb1 hb2 hb3 hb4
    set tx := (pos.1 : ℤ) + (if serp && pos.2 % 2 == 1 then -e.1 else e.1) with htx
    set ty := (pos.2 : ℤ) + e.2.1 with hty
    have hlt := rank_lt_target hx (hK e he) htx hty hb1 hb2 hb3 hb4
    exact pid_channels_ne (t := (tx.toNat, ty.toNat)) (by omega) hx hlt hc (by ring)
  · simp only [update3]
    rw [if_pos (by omega)]

theorem diffuseStep_binaryPixel {w h : ℕ} {K : List (ℤ × ℤ × ℚ)} {dv : ℚ} {serp : Bool}
    (hK : kernelFwd K) {d : ℕ → ℚ} {pos : ℕ × ℕ} (hx : pos.1 < w) (hy : pos.2 < h) :
    binaryPixel (diffuseStep w h K dv serp d pos) (pos.2 * w + pos.1) := by
  have h0 := @diffuseStep_channel w h K dv serp hK d pos hx hy 0 (by omega)
  have h1 := @diffuseStep_channel w h K dv serp hK d pos hx hy 1 (by omega)
  have h2 := @diffuseStep_channel w h K dv serp hK d pos hx hy 2 (by omega)
  unfold binaryPixel
  rw [show 4 * (pos.2 * w + pos.1) = (pos.2 * w + pos.1) * 4 + 0 from by ring,
    show (pos.2 * w + pos.1) * 4 + 0 + 1 = (pos.2 * w + pos.1) * 4 + 1 from by ring,
    show (pos.2 * w + pos.1) * 4 + 0 + 2 = (pos.2 * w + pos.1) * 4 + 2 from by ring,
    h0, h1, h2]
  refine ⟨rfl, rfl, ?_⟩
  split
  · exact Or.inl rfl
  · exact Or.inr rfl

/-- Binarization is stable: once a pixel has been processed, every later
step of the same pass leaves its channels untouched, so after the whole
pass each processed pixel carries its binary value. -/
theorem scanFold_binaryPixel {w h : ℕ} {K : List (ℤ × ℤ × ℚ)} {dv : ℚ} {serp : Bool}
    (hK : kernelFwd K) :
    ∀ (L : List (ℕ × ℕ)) (d : ℕ → ℚ),
      (∀ b ∈ L, b.1 < w ∧ b.2 < h) →
      L.Pairwise (fun u v => rank w serp u < rank w serp v) →
      ∀ a ∈ L, binaryPixel (L.foldl (diffuseStep w h K dv serp) d) (a.2 * w + a.1) := by
  intro L
  induction L with
  | nil => intro d _ _ a ha; cases ha
  | cons b L ih =>
    intro d hb hpw a ha
    obtain ⟨hpw1, hpw2⟩ := List.pairwise_cons.mp hpw
    rw [List.foldl_cons]
    rcases List.mem_cons.mp ha with rfl | haL
    · have hbx := (hb a (List.mem_cons_self _ _)).1
      have hby := (hb a (List.mem_cons_self _ _)).2
      have hbin := @diffuseStep_binaryPixel w h K dv serp hK d a hbx hby
      have hpres : ∀ c, c < 3 →
          (L.foldl (diffuseStep w h K dv serp) (diffuseStep w h K dv serp d a))
              (4 * (a.2 * w + a.1) + c) =
            diffuseStep w h K dv serp d a (4 * (a.2 * w + a.1) + c) := by
        intro c hc
        refine foldl_pres (fun s : ℕ → ℚ => s) _
          (fun q j => q.1 < w ∧ q.2 < h ∧
            ∀ t : ℕ × ℕ, t.1 < w → t.2 < h → rank w serp q ≤ rank w serp t →
              j ≠ (t.2 * w + t.1) * 4 ∧ j ≠ (t.2 * w + t.1) * 4 + 1 ∧
                j ≠ (t.2 * w + t.1) * 4 + 2)
          (fun st q j hW => diffuseStep_pres hK hW.1 hW.2.1 hW.2.2) L _ _ ?_
        intro q hq
        refine ⟨(hb q (List.mem_cons_of_mem _ hq)).1, (hb q (List.mem_cons_of_mem _ hq)).2, ?_⟩
        intro t ht1 ht2 hrank
        exact pid_channels_ne ht1 hbx (lt_of_lt_of_le (hpw1 q hq) hrank) hc rfl
      unfold binaryPixel at hbin ⊢
      rw [show 4 * (a.2 * w + a.1) + 1 = 4 * (a.2 * w + a.1) + 1 from rfl] at hbin
      rw [show 4 * (a.2 * w + a.1) = 4 * (a.2 * w + a.1) + 0 from by ring,
        hpres 0 (by omega), hpres 1 (by omega), hpres 2 (by omega),
        show 4 * (a.2 * w + a.1) + 0 = 4 * (a.2 * w + a.1) from by ring]
      exact hbin
    · exact ih _ (fun q hq => hb q (List.mem_cons_of_mem _ hq)) hpw2 a haL

/-- Lower bound for the scan rank of a position by its row. -/
theorem rank_lower {w : ℕ} {serp : Bool} (pos : ℕ × ℕ) :
    pos.2 * w ≤ rank w serp pos := by
  unfold rank
  by_cases hc : (serp && pos.2 % 2 == 1) = true <;> simp [hc]

/-- Upper bound for the scan rank of a position inside the raster. -/
theorem rank_upper {w : ℕ} {serp : Bool} {pos : ℕ × ℕ} (hx : pos.1 < w) :
    rank w serp pos < (pos.2 + 1) * w := by
  have hd : (pos.2 + 1) * w = pos.2 * w + w := by ring
  unfold rank
  by_cases hc : (serp && pos.2 % 2 == 1) = true <;> simp [hc] <;> omega

theorem scanOrder_mem {w h : ℕ} {serp : Bool} {pos : ℕ × ℕ} :
    pos ∈ scanOrder w h serp ↔ pos.1 < w ∧ pos.2 < h := by
  unfold scanOrder
  simp only [List.mem_flatMap, List.mem_map, List.mem_range]
  constructor
  · rintro ⟨y, hy, x, hx, rfl⟩
    refine ⟨?_, hy⟩
    by_cases hc : (serp && y % 2 == 1) = true <;>
      simp [hc, List.mem_reverse, List.mem_range] at hx <;> exact hx
  · rintro ⟨h1, h2⟩
    refine ⟨pos.2, h2, pos.1, ?_, rfl⟩
    by_cases hc : (serp && pos.2 % 2 == 1) = true <;>
      simp [hc, List.mem_reverse, List.mem_range, h1]

theorem scanOrder_pairwise {w h : ℕ} {serp : Bool} :
    (scanOrder w h serp).Pairwise (fun u v => rank w serp u < rank w serp v) := by
  unfold scanOrder
  rw [List.pairwise_flatMap]
  constructor
  · intro y hy
    rw [List.pairwise_map]
    by_cases hc : (serp && y % 2 == 1) = true
    · rw [if_pos hc, List.pairwise_reverse]
      refine List.Pairwise.imp_of_mem ?_ (List.pairwise_lt_range w)
      intro a b ha hb hab
      have haw := List.mem_range.mp ha
      have hbw := List.mem_range.mp hb
      unfold rank
      simp [hc]
      omega
    · rw [if_neg hc]
      refine List.Pairwise.imp_of_mem ?_ (List.pairwise_lt_range w)
      intro a b ha hb hab
      unfold rank
      simp only [if_neg hc]
      omega
  · refine List.Pairwise.imp_of_mem ?_ (List.pairwise_lt_range h)
    intro y1 y2 hy1 hy2 hlt p hp q hq
    obtain ⟨x1, hx1, rfl⟩ := List.mem_map.mp hp
    obtain ⟨x2, hx2, rfl⟩ := List.mem_map.mp hq
    have hx1w : x1 < w := by
      by_cases hc : (serp && y1 % 2 == 1) = true <;>
        simp [hc, List.mem_reverse, List.mem_range] at hx1 <;> exact hx1
    have hx2w : x2 < w := by
      by_cases hc : (serp && y2 % 2 == 1) = true <;>
        simp [hc, List.mem_reverse, List.mem_range] at hx2 <;> exact hx2
    have h1 : rank w serp (x1, y1) < (y1 + 1) * w := rank_upper hx1w
    have h2 : ((x2, y2) : ℕ × ℕ).2 * w ≤ rank w serp (x2, y2) := rank_lower (x2, y2)
    have h3 : (y1 + 1) * w ≤ y2 * w := Nat.mul_le_mul_right _ (by omega)
    exact lt_of_lt_of_le h1 (le_trans h3 h2)

/-- All pixels of the raster are binarized by an error-diffusion pass. -/
theorem errorDiffusion_data_binary {K : List (ℤ × ℤ × ℚ)} {dv : ℚ} {serp : Bool}
    (hK : kernelFwd K) (image : Image) {p : ℕ} (hp : p < image.width * image.height) :
    binaryPixel (errorDiffusion image K dv serp).data p := by
  have hw : 0 < image.width := by
    rcases Nat.eq_zero_or_pos image.width with h0 | h0
    · rw [h0] at hp; simp at hp
    · exact h0
  have hx : p % image.width < image.width := Nat.mod_lt _ hw
  have hy : p / image.width < image.height := by
    rw [Nat.div_lt_iff_lt_mul hw]
    exact lt_of_lt_of_le hp (le_of_eq (Nat.mul_comm _ _))
  have hpid : (p / image.width) * image.width + p % image.width = p := by
    rw [Nat.mul_comm]
    exact Nat.div_add_mod p image.width
  have hmem : ((p % image.width, p / image.width) : ℕ × ℕ) ∈
      scanOrder image.width image.height serp := scanOrder_mem.mpr ⟨hx, hy⟩
  have hall : ∀ b ∈ scanOrder image.width image.height serp,
      b.1 < image.width ∧ b.2 < image.height := fun b hb => scanOrder_mem.mp hb
  have := @scanFold_binaryPixel image.width image.height K dv serp hK
    (scanOrder image.width image.height serp)
    image.data hall scanOrder_pairwise (p % image.width, p / image.width) hmem
  rw [show ((p % image.width, p / image.width) : ℕ × ℕ).2 * image.width +
      ((p % image.width, p / image.width) : ℕ × ℕ).1 = p from hpid] at this
  exact this

/-- An error-diffusion pass never touches alpha bytes. -/
theorem errorDiffusion_alpha {K : List (ℤ × ℤ × ℚ)} {dv : ℚ} {serp : Bool}
    (hK : kernelFwd K) (image : Image) {i : ℕ} (hi : i % 4 = 3) :
    (errorDiffusion image K dv serp).data i = image.data i := by
  refine foldl_pres (fun s : ℕ → ℚ => s) _
    (fun pos j => pos.1 < image.width ∧ pos.2 < image.height ∧ j % 4 = 3)
    (fun st pos j hW =>
      diffuseStep_pres hK hW.1 hW.2.1 fun t ht1 ht2 _ => by omega)
    _ _ i (fun b hb => ⟨(scanOrder_mem.mp hb).1, (scanOrder_mem.mp hb).2, hi⟩)

theorem toGrayscale_alpha (image : Image) {i : ℕ} (hi : i % 4 = 3) :
    (toGrayscale image).data i = image.data i :=
  pixelScan_alpha hi

/-- Grayscale followed by a forward error-diffusion pass satisfies the
binary output contract. -/
theorem errorDiffusion_gray_invariant {K : List (ℤ × ℤ × ℚ)} {dv : ℚ} {serp : Bool}
    (hK : kernelFwd K) (image : Image) :
    binaryInvariant image (errorDiffusion (toGrayscale image) K dv serp) := by
  refine ⟨rfl, rfl, ?_, ?_⟩
  · intro p hp
    exact errorDiffusion_data_binary hK (toGrayscale image) hp
  · intro p hp
    rw [errorDiffusion_alpha hK _ (by omega), toGrayscale_alpha image (by omega)]

/-! ## Claim C8: boundary safety on a 1×1 image -/

theorem toGrayscale_one_one (d : ℕ → ℚ) :
    (toGrayscale ⟨1, 1, d⟩).data = update3 d 0 (lum (d 0) (d 1) (d 2)) := by
  show pixelScan (fun _ r g b => lum r g b) (List.range (1 * 1)) d =
    update3 d 0 (lum (d 0) (d 1) (d 2))
  rw [show List.range 1 = [0] from rfl, pixelScan_cons, pixelScan_nil]

/-- On a 1×1 raster every kernel target of the single diffusion step is
out of bounds and dropped, so the pass only binarizes the one pixel. -/
theorem errorDiffusion_one_one {K : List (ℤ × ℤ × ℚ)} {dv : ℚ} {serp : Bool}
    (hK : kernelFwd K) (d : ℕ → ℚ) (i : ℕ) :
    (errorDiffusion ⟨1, 1, d⟩ K dv serp).data i =
      if i = 0 ∨ i = 1 ∨ i = 2 then (if d 0 < 128 then (0 : ℚ) else 255) else d i := by
  show (scanOrder 1 1 serp).foldl (diffuseStep 1 1 K dv serp) d i = _
  have hso : scanOrder 1 1 serp = [(0, 0)] := by cases serp <;> rfl
  rw [hso, List.foldl_cons, List.foldl_nil]
  have hfold : diffuseStep 1 1 K dv serp d (0, 0) i =
      update3 d 0 (if d 0 < 128 then (0 : ℚ) else 255) i := by
    simp only [diffuseStep]
    refine Eq.trans
      (foldl_pres (fun s : ℕ → ℚ => s) _
        (fun e j =>
          0 ≤ (((0, 0) : ℕ × ℕ).1 : ℤ) +
              (if serp && ((0, 0) : ℕ × ℕ).2 % 2 == 1 then -e.1 else e.1) →
          (((0, 0) : ℕ × ℕ).1 : ℤ) +
              (if serp && ((0, 0) : ℕ × ℕ).2 % 2 == 1 then -e.1 else e.1) < ((1 : ℕ) : ℤ) →
          0 ≤ (((0, 0) : ℕ × ℕ).2 : ℤ) + e.2.1 →
          (((0, 0) : ℕ × ℕ).2 : ℤ) + e.2.1 < ((1 : ℕ) : ℤ) → False)
        (fun st e j hW => addError_pres fun hb1 hb2 hb3 hb4 =>
          absurd (hW hb1 hb2 hb3 hb4) not_false)
      K _ i ?_) ?_
    · intro e he hb1 hb2 hb3 hb4
      rcases hK e he with h1 | ⟨h1, h2⟩
      · simp only at hb4
        omega
      · simp only [Nat.reduceMod, Nat.reduceBEq, Bool.and_false, Bool.false_eq_true,
          if_false] at hb1 hb2
        omega
    · show update3 d ((((0, 0) : ℕ × ℕ).2 * 1 + ((0, 0) : ℕ × ℕ).1) * 4) _ i = _
      norm_num
  rw [hfold]
  simp only [update3]

set_option maxHeartbeats 1000000 in
/-- Claim C8: on a 1×1 image every error-diffusion algorithm drops all
its kernel targets as out of bounds: the call terminates with the single
pixel binarized against 128 (0 below, 255 otherwise) and every other
buffer index — including the alpha byte — bit-identical. -/
theorem c8_boundary_safety (d : ℕ → ℚ) (opts : DitherOptions) (i : ℕ) :
    ((floydSteinberg ⟨1, 1, d⟩ opts).data i =
      if i = 0 ∨ i = 1 ∨ i = 2
      then (if lum (d 0) (d 1) (d 2) < 128 then (0 : ℚ) else 255) else d i) ∧
    ((atkinson ⟨1, 1, d⟩ opts).data i =
      if i = 0 ∨ i = 1 ∨ i = 2
      then (if lum (d 0) (d 1) (d 2) < 128 then (0 : ℚ) else 255) else d i) ∧
    ((burkes ⟨1, 1, d⟩ opts).data i =
      if i = 0 ∨ i = 1 ∨ i = 2
      then (if lum (d 0) (d 1) (d 2) < 128 then (0 : ℚ) else 255) else d i) ∧
    ((diffusionRow ⟨1, 1, d⟩ opts).data i =
      if i = 0 ∨ i = 1 ∨ i = 2
      then (if lum (d 0) (d 1) (d 2) < 128 then (0 : ℚ) else 255) else d i) ∧
    ((diffusionColumn ⟨1, 1, d⟩ opts).data i =
      if i = 0 ∨ i = 1 ∨ i = 2
      then (if lum (d 0) (d 1) (d 2) < 128 then (0 : ℚ) else 255) else d i) ∧
    ((diffusion2D ⟨1, 1, d⟩ opts).data i =
      if i = 0 ∨ i = 1 ∨ i = 2
      then (if lum (d 0) (d 1) (d 2) < 128 then (0 : ℚ) else 255) else d i) ∧
    ((jarvisJudiceNinke ⟨1, 1, d⟩ opts).data i =
      if i = 0 ∨ i = 1 ∨ i = 2
      then (if lum (d 0) (d 1) (d 2) < 128 then (0 : ℚ) else 255) else d i) ∧
    ((sierra2 ⟨1, 1, d⟩ opts).data i =
      if i = 0 ∨ i = 1 ∨ i = 2
      then (if lum (d 0) (d 1) (d 2) < 128 then (0 : ℚ) else 255) else d i) ∧
    ((stucki ⟨1, 1, d⟩ opts).data i =
      if i = 0 ∨ i = 1 ∨ i = 2
      then (if lum (d 0) (d 1) (d 2) < 128 then (0 : ℚ) else 255) else d i) := by
  have hg := toGrayscale_one_one d
  have key : ∀ (K : List (ℤ × ℤ × ℚ)) (dv : ℚ), kernelFwd K →
      (errorDiffusion (toGrayscale ⟨1, 1, d⟩) K dv opts.serpentine).data i =
        if i = 0 ∨ i = 1 ∨ i = 2
        then (if lum (d 0) (d 1) (d 2) < 128 then (0 : ℚ) else 255) else d i := by
    intro K dv hK
    rw [show errorDiffusion (toGrayscale ⟨1, 1, d⟩) K dv opts.serpentine =
        errorDiffusion ⟨1, 1, (toGrayscale ⟨1, 1, d⟩).data⟩ K dv opts.serpentine from rfl,
      errorDiffusion_one_one hK _ i]
    by_cases hi : i = 0 ∨ i = 1 ∨ i = 2
    · rw [if_pos hi, if_pos hi, hg, update3_apply_left]
    · rw [if_neg hi, if_neg hi, hg]
      push_neg at hi
      exact update3_apply_of_ne (by omega) (by omega) (by omega)
  exact ⟨key _ _ (by decide), key _ _ (by decide), key _ _ (by decide), key _ _ (by decide),
    key _ _ (by decide), key _ _ (by decide), key _ _ (by decide), key _ _ (by decide),
    key _ _ (by decide)⟩

/-! ## Binary invariant for the pointwise algorithms -/

theorem ite_binary {c : Prop} [Decidable c] :
    (if c then (0 : ℚ) else 255) = 0 ∨ (if c then (0 : ℚ) else 255) = 255 := by
  split
  · exact Or.inl rfl
  · exact Or.inr rfl

theorem pixel_decomp {w h p : ℕ} (hp : p < w * h) :
    p % w < w ∧ p / w < h ∧ (p / w) * w + p % w = p := by
  have hw : 0 < w := by
    rcases Nat.eq_zero_or_pos w with h0 | h0
    · subst h0; simp at hp
    · exact h0
  refine ⟨Nat.mod_lt _ hw, ?_, ?_⟩
  · rw [Nat.div_lt_iff_lt_mul hw]
    exact lt_of_lt_of_le hp (le_of_eq (Nat.mul_comm _ _))
  · rw [Nat.mul_comm]
    exact Nat.div_add_mod p w

/-- A grayscale pass followed by a pointwise binarization satisfies the
binary output contract. -/
theorem binaryInvariant_of_pixelScan (image : Image) (f : ℕ → ℚ → ℚ → ℚ → ℚ)
    (hf : ∀ p a b c, f p a b c = 0 ∨ f p a b c = 255) :
    binaryInvariant image
      { toGrayscale image with
        data := pixelScan f (List.range (image.width * image.height))
          (toGrayscale image).data } := by
  refine ⟨rfl, rfl, ?_, ?_⟩
  · intro p hp
    exact pixelScan_binaryPixel hf (List.nodup_range _) (List.mem_range.mpr hp)
  · intro p hp
    show pixelScan _ _ _ _ = _
    rw [pixelScan_alpha (by omega), toGrayscale_alpha image (by omega)]

/-! ## Generic facts about the hybrid row-buffer scans (SETS and EBS) -/

theorem rowFold_pres {pix : ((ℕ → ℚ) × (ℕ → ℚ) × (ℕ → ℚ)) → ℕ → ((ℕ → ℚ) × (ℕ → ℚ) × (ℕ → ℚ))}
    {y w : ℕ}
    (hst : ∀ st x j, j ≠ (y * w + x) * 4 → j ≠ (y * w + x) * 4 + 1 →
      j ≠ (y * w + x) * 4 + 2 → (pix st x).1 j = st.1 j) :
    ∀ (xs : List ℕ) (st : (ℕ → ℚ) × (ℕ → ℚ) × (ℕ → ℚ)) (j : ℕ),
      (∀ x ∈ xs, j ≠ (y * w + x) * 4 ∧ j ≠ (y * w + x) * 4 + 1 ∧ j ≠ (y * w + x) * 4 + 2) →
      ((xs.foldl pix st).1) j = st.1 j :=
  fun xs st j hall =>
    foldl_pres (fun s => s.1) pix
      (fun x j => j ≠ (y * w + x) * 4 ∧ j ≠ (y * w + x) * 4 + 1 ∧ j ≠ (y * w + x) * 4 + 2)
      (fun st x j hW => hst st x j hW.1 hW.2.1 hW.2.2) xs st j hall

theorem rowFold_binary {pix : ((ℕ → ℚ) × (ℕ → ℚ) × (ℕ → ℚ)) → ℕ → ((ℕ → ℚ) × (ℕ → ℚ) × (ℕ → ℚ))}
    {y w : ℕ}
    (hst : ∀ st x j, j ≠ (y * w + x) * 4 → j ≠ (y * w + x) * 4 + 1 →
      j ≠ (y * w + x) * 4 + 2 → (pix st x).1 j = st.1 j)
    (hbin : ∀ st x, ∃ v : ℚ, (v = 0 ∨ v = 255) ∧
      ∀ c, c < 3 → (pix st x).1 ((y * w + x) * 4 + c) = v) :
    ∀ (xs : List ℕ), xs.Nodup → ∀ st, ∀ x ∈ xs,
      binaryPixel ((xs.foldl pix st).1) (y * w + x) := by
  intro xs
  induction xs with
  | nil => intro _ st x hx; cases hx
  | cons x0 rest ih =>
    intro hnd st x hx
    rw [List.foldl_cons]
    rcases List.mem_cons.mp hx with rfl | hx2
    · obtain ⟨v, hv, hvc⟩ := hbin st x
      have hpres : ∀ c, c < 3 → ((rest.foldl pix (pix st x)).1) ((y * w + x) * 4 + c) =
          (pix st x).1 ((y * w + x) * 4 + c) := by
        intro c hc
        refine rowFold_pres hst rest _ _ ?_
        intro x' hx'
        have hne : x' ≠ x := fun hEq => (List.nodup_cons.mp hnd).1 (hEq ▸ hx')
        omega
      unfold binaryPixel
      rw [show 4 * (y * w + x) = (y * w + x) * 4 + 0 from by ring,
        show (y * w + x) * 4 + 0 + 1 = (y * w + x) * 4 + 1 from by ring,
        show (y * w + x) * 4 + 0 + 2 = (y * w + x) * 4 + 2 from by ring,
        hpres 0 (by omega), hpres 1 (by omega), hpres 2 (by omega),
        hvc 0 (by omega), hvc 1 (by omega), hvc 2 (by omega)]
      exact ⟨rfl, rfl, hv⟩
    · exact ih (List.nodup_cons.mp hnd).2 _ x hx2

theorem rowsFold_pres {pixF : ℕ → ((ℕ → ℚ) × (ℕ → ℚ) × (ℕ → ℚ)) → ℕ → ((ℕ → ℚ) × (ℕ → ℚ) × (ℕ → ℚ))}
    {w : ℕ}
    (hst : ∀ y st x j, j ≠ (y * w + x) * 4 → j ≠ (y * w + x) * 4 + 1 →
      j ≠ (y * w + x) * 4 + 2 → (pixF y st x).1 j = st.1 j) :
    ∀ (ys : List ℕ) (st : (ℕ → ℚ) × (ℕ → ℚ)) (j : ℕ),
      (∀ y ∈ ys, ∀ x, x < w →
        j ≠ (y * w + x) * 4 ∧ j ≠ (y * w + x) * 4 + 1 ∧ j ≠ (y * w + x) * 4 + 2) →
      ((ys.foldl
          (fun st y =>
            let r := (List.range w).foldl (pixF y) (st.1, st.2, fun _ => (0 : ℚ))
            (r.1, r.2.2)) st).1) j = st.1 j := by
  intro ys st j hall
  refine foldl_pres (fun s : (ℕ → ℚ) × (ℕ → ℚ) => s.1) _
    (fun y j => ∀ x, x < w →
      j ≠ (y * w + x) * 4 ∧ j ≠ (y * w + x) * 4 + 1 ∧ j ≠ (y * w + x) * 4 + 2)
    ?_ ys st j hall
  intro st y j hW
  exact rowFold_pres (hst y) (List.range w) _ j fun x hx => hW x (List.mem_range.mp hx)

theorem rowsFold_binary
    {pixF : ℕ → ((ℕ → ℚ) × (ℕ → ℚ) × (ℕ → ℚ)) → ℕ → ((ℕ → ℚ) × (ℕ → ℚ) × (ℕ → ℚ))}
    {w : ℕ}
    (hst : ∀ y st x j, j ≠ (y * w + x) * 4 → j ≠ (y * w + x) * 4 + 1 →
      j ≠ (y * w + x) * 4 + 2 → (pixF y st x).1 j = st.1 j)
    (hbin : ∀ y st x, ∃ v : ℚ, (v = 0 ∨ v = 255) ∧
      ∀ c, c < 3 → (pixF y st x).1 ((y * w + x) * 4 + c) = v) :
    ∀ (ys : List ℕ), ys.Pairwise (· < ·) → ∀ (st : (ℕ → ℚ) × (ℕ → ℚ)),
      ∀ y ∈ ys, ∀ x, x < w →
        binaryPixel
          ((ys.foldl
            (fun st y =>
              let r := (List.range w).foldl (pixF y) (st.1, st.2, fun _ => (0 : ℚ))
              (r.1, r.2.2)) st).1) (y * w + x) := by
  intro ys
  induction ys with
  | nil => intro _ st y hy; cases hy
  | cons y0 rest ih =>
    intro hpw st y hy x hx
    obtain ⟨hpw1, hpw2⟩ := List.pairwise_cons.mp hpw
    rw [List.foldl_cons]
    rcases List.mem_cons.mp hy with rfl | hy2
    · have hbinRow := rowFold_binary (hst y) (hbin y) (List.range w) (List.nodup_range _)
        (st.1, st.2, fun _ => (0 : ℚ)) x (List.mem_range.mpr hx)
      have hpres : ∀ c, c < 3 →
          ((rest.foldl
            (fun st y =>
              let r := (List.range w).foldl (pixF y) (st.1, st.2, fun _ => (0 : ℚ))
              (r.1, r.2.2))
            (let r := (List.range w).foldl (pixF y) (st.1, st.2, fun _ => (0 : ℚ))
             (r.1, r.2.2))).1) (4 * (y * w + x) + c) =
          ((List.range w).foldl (pixF y) (st.1, st.2, fun _ => (0 : ℚ))).1
            (4 * (y * w + x) + c) := by
        intro c hc
        refine rowsFold_pres hst rest _ _ ?_
        intro y' hy' x' hx'
        have hlt : y < y' := hpw1 y' hy'
        have hne : y' * w + x' ≠ y * w + x := by
          intro hEq
          obtain ⟨h1, h2⟩ := pid_inj hx' hx hEq
          omega
        omega
      unfold binaryPixel at hbinRow ⊢
      rw [show 4 * (y * w + x) + 1 = 4 * (y * w + x) + 1 from rfl]
      rw [show 4 * (y * w + x) = 4 * (y * w + x) + 0 from by ring] at hbinRow ⊢
      rw [show 4 * (y * w + x) + 0 + 1 = 4 * (y * w + x) + 1 from by ring] at hbinRow ⊢
      rw [show 4 * (y * w + x) + 0 + 2 = 4 * (y * w + x) + 2 from by ring] at hbinRow ⊢
      rw [hpres 0 (by omega), hpres 1 (by omega), hpres 2 (by omega)]
      exact hbinRow
    · exact ih hpw2 _ y hy2 x hx

/-! ## Binary invariant, algorithm by algorithm -/

theorem threshold_invariant (image : Image) : binaryInvariant image (threshold image) := by
  unfold threshold
  exact binaryInvariant_of_pixelScan image _ fun p a b c => ite_binary

theorem orderedBayer_invariant (image : Image) : binaryInvariant image (orderedBayer image) := by
  unfold orderedBayer
  exact binaryInvariant_of_pixelScan image _ fun p a b c => ite_binary

theorem randomDither_invariant (image : Image) (rand : ℕ → ℚ) :
    binaryInvariant image (randomDither image rand) := by
  unfold randomDither
  exact binaryInvariant_of_pixelScan image _ fun p a b c => ite_binary

theorem ditherpunk_invariant (image : Image) (rand : ℕ → ℚ) :
    binaryInvariant image (ditherpunk image rand) := by
  unfold ditherpunk
  exact binaryInvariant_of_pixelScan image _ fun p a b c => ite_binary

theorem evenTonedScreening_invariant (image : Image) (opts : DitherOptions) :
    binaryInvariant image (evenTonedScreening image opts) := by
  unfold evenTonedScreening
  exact binaryInvariant_of_pixelScan image _ fun p a b c => ite_binary

set_option linter.unusedVariables false in
theorem setsPix_pres {w h y : ℕ} :
    ∀ (st : (ℕ → ℚ) × (ℕ → ℚ) × (ℕ → ℚ)) (x j : ℕ),
      j ≠ (y * w + x) * 4 → j ≠ (y * w + x) * 4 + 1 → j ≠ (y * w + x) * 4 + 2 →
      (setsPix w h y st x).1 j = st.1 j :=
  fun st x j h1 h2 h3 => update3_apply_of_ne h1 h2 h3

theorem setsPix_hbin {w h y : ℕ} :
    ∀ (st : (ℕ → ℚ) × (ℕ → ℚ) × (ℕ → ℚ)) (x : ℕ), ∃ v : ℚ, (v = 0 ∨ v = 255) ∧
      ∀ c, c < 3 → (setsPix w h y st x).1 ((y * w + x) * 4 + c) = v := by
  intro st x
  refine ⟨if st.1 ((y * w + x) * 4) + st.2.1 x < clamp (128 + st.2.1 x * (0.25 : ℚ))
    then (0 : ℚ) else 255, ite_binary, ?_⟩
  intro c hc
  show update3 st.1 ((y * w + x) * 4) _ ((y * w + x) * 4 + c) = _
  simp only [update3]
  rw [if_pos (by omega)]

set_option linter.unusedVariables false in
theorem ebsPix_pres {w h th tw : ℕ} {tm : ℕ → ℕ → ℚ} {y : ℕ} :
    ∀ (st : (ℕ → ℚ) × (ℕ → ℚ) × (ℕ → ℚ)) (x j : ℕ),
      j ≠ (y * w + x) * 4 → j ≠ (y * w + x) * 4 + 1 → j ≠ (y * w + x) * 4 + 2 →
      (ebsPix w h th tw tm y st x).1 j = st.1 j :=
  fun st x j h1 h2 h3 => update3_apply_of_ne h1 h2 h3

theorem ebsPix_hbin {w h th tw : ℕ} {tm : ℕ → ℕ → ℚ} {y : ℕ} :
    ∀ (st : (ℕ → ℚ) × (ℕ → ℚ) × (ℕ → ℚ)) (x : ℕ), ∃ v : ℚ, (v = 0 ∨ v = 255) ∧
      ∀ c, c < 3 → (ebsPix w h th tw tm y st x).1 ((y * w + x) * 4 + c) = v := by
  intro st x
  refine ⟨if st.1 ((y * w + x) * 4) + st.2.1 x < clamp (128 + tm (y % th) (x % tw))
    then (0 : ℚ) else 255, ite_binary, ?_⟩
  intro c hc
  show update3 st.1 ((y * w + x) * 4) _ ((y * w + x) * 4 + c) = _
  simp only [update3]
  rw [if_pos (by omega)]

theorem simpleEvenTonedScreening_invariant (image : Image) :
    binaryInvariant image (simpleEvenTonedScreening image) := by
  refine ⟨rfl, rfl, ?_, ?_⟩
  · intro p hp
    obtain ⟨hx, hy, hpid⟩ := pixel_decomp hp
    have hb := @rowsFold_binary (setsPix image.width image.height) image.width
      (fun _ => setsPix_pres) (fun _ => setsPix_hbin)
      (List.range image.height) (List.pairwise_lt_range _)
      ((toGrayscale image).data, fun _ => (0 : ℚ))
      (p / image.width) (List.mem_range.mpr hy) (p % image.width) hx
    rw [hpid] at hb
    exact hb
  · intro p hp
    have h1 := @rowsFold_pres (setsPix image.width image.height) image.width
      (fun _ => setsPix_pres)
      (List.range image.height) ((toGrayscale image).data, fun _ => (0 : ℚ))
      (4 * p + 3) (fun y hy x hx => by omega)
    exact h1.trans (toGrayscale_alpha image (by omega))

theorem evenBetterScreening_invariant (image : Image) (opts : DitherOptions) :
    binaryInvariant image (evenBetterScreening image opts) := by
  refine ⟨rfl, rfl, ?_, ?_⟩
  · intro p hp
    obtain ⟨hx, hy, hpid⟩ := pixel_decomp hp
    have hb := @rowsFold_binary
      (ebsPix image.width image.height (jsOrNat opts.tmheight 256)
        (jsOrNat opts.tmwid 256)
        (match opts.tmmat with
         | some m => m
         | none => generateDefaultTM (jsOrNat opts.tmwid 256) (jsOrNat opts.tmheight 256)
             opts.rand))
      image.width
      (fun _ => ebsPix_pres) (fun _ => ebsPix_hbin)
      (List.range image.height) (List.pairwise_lt_range _)
      ((toGrayscale image).data, fun _ => (0 : ℚ))
      (p / image.width) (List.mem_range.mpr hy) (p % image.width) hx
    rw [hpid] at hb
    exact hb
  · intro p hp
    have h1 := @rowsFold_pres
      (ebsPix image.width image.height (jsOrNat opts.tmheight 256)
        (jsOrNat opts.tmwid 256)
        (match opts.tmmat with
         | some m => m
         | none => generateDefaultTM (jsOrNat opts.tmwid 256) (jsOrNat opts.tmheight 256)
             opts.rand))
      image.width
      (fun _ => ebsPix_pres)
      (List.range image.height) ((toGrayscale image).data, fun _ => (0 : ℚ))
      (4 * p + 3) (fun y hy x hx => by omega)
    exact h1.trans (toGrayscale_alpha image (by omega))

set_option linter.unusedVariables false in
/-- Claim C2: for every well-formed image (positive dimensions, buffer of
length width·height·4) and every algorithm tag except GRAYSCALE and
CUSTOM, the dispatcher succeeds and afterwards every pixel has
R = G = B ∈ {0, 255} while every alpha byte is bit-identical to its
pre-call value. -/
theorem c2_binary_invariant (image : Image) (opts : DitherOptions) (tag : String)
    (hw : 0 < image.width) (hh : 0 < image.height)
    (htag : tag ∈ ["FLOYD_STEINBERG", "ATKINSON", "THRESHOLD", "BURKES", "DIFFUSION_ROW",
      "DIFFUSION_COLUMN", "DIFFUSION_2D", "JARVIS_JUDICE_NINKE", "SIERRA2", "STUCKI",
      "ORDERED_BAYER", "RANDOM", "DITHERPUNK", "EVEN_TONED_SCREENING",
      "SIMPLE_EVEN_TONED_SCREENING", "EVEN_BETTER_SCREENING"]) :
    ∃ out, dither image (some tag) opts = Except.ok out ∧ binaryInvariant image out := by
  fin_cases htag
  · exact ⟨_, rfl, errorDiffusion_gray_invariant (by decide) image⟩
  · exact ⟨_, rfl, errorDiffusion_gray_invariant (by decide) image⟩
  · exact ⟨_, rfl, threshold_invariant image⟩
  · exact ⟨_, rfl, errorDiffusion_gray_invariant (by decide) image⟩
  · exact ⟨_, rfl, errorDiffusion_gray_invariant (by decide) image⟩
  · exact ⟨_, rfl, errorDiffusion_gray_invariant (by decide) image⟩
  · exact ⟨_, rfl, errorDiffusion_gray_invariant (by decide) image⟩
  · exact ⟨_, rfl, errorDiffusion_gray_invariant (by decide) image⟩
  · exact ⟨_, rfl, errorDiffusion_gray_invariant (by decide) image⟩
  · exact ⟨_, rfl, errorDiffusion_gray_invariant (by decide) image⟩
  · exact ⟨_, rfl, orderedBayer_invariant image⟩
  · exact ⟨_, rfl, randomDither_invariant image opts.rand⟩
  · exact ⟨_, rfl, ditherpunk_invariant image opts.rand⟩
  · exact ⟨_, rfl, evenTonedScreening_invariant image opts⟩
  · exact ⟨_, rfl, simpleEvenTonedScreening_invariant image⟩
  · exact ⟨_, rfl, evenBetterScreening_invariant image opts⟩

/-- Witness for claim C2: a concrete 1×1 image dispatched with
FLOYD_STEINBERG. -/
theorem c2_binary_invariant_witness :
    0 < (Image.mk 1 1 fun _ => 200).width ∧ 0 < (Image.mk 1 1 fun _ => 200).height ∧
    "FLOYD_STEINBERG" ∈ ["FLOYD_STEINBERG", "ATKINSON", "THRESHOLD", "BURKES", "DIFFUSION_ROW",
      "DIFFUSION_COLUMN", "DIFFUSION_2D", "JARVIS_JUDICE_NINKE", "SIERRA2", "STUCKI",
      "ORDERED_BAYER", "RANDOM", "DITHERPUNK", "EVEN_TONED_SCREENING",
      "SIMPLE_EVEN_TONED_SCREENING", "EVEN_BETTER_SCREENING"] ∧
    ∃ out, dither (Image.mk 1 1 fun _ => 200) (some "FLOYD_STEINBERG") {} = Except.ok out ∧
      binaryInvariant (Image.mk 1 1 fun _ => 200) out :=
  ⟨by decide, by decide, by decide,
    c2_binary_invariant (Image.mk 1 1 fun _ => 200) {} "FLOYD_STEINBERG"
      (by decide) (by decide) (by decide)⟩

/-! ## Claim C7: idempotence of ORDERED_BAYER -/

theorem Image_eq {A B : Image} (h1 : A.width = B.width) (h2 : A.height = B.height)
    (h3 : A.data = B.data) : A = B := by
  cases A; cases B
  simp only at h1 h2 h3
  rw [h1, h2, h3]

theorem orderedBayer_data (image : Image) :
    (orderedBayer image).data =
      pixelScan
        (fun p v _ _ =>
          if v < (bayerAt ((p / (toGrayscale image).width) % 4)
              ((p % (toGrayscale image).width) % 4) + (0.5 : ℚ)) * (255 / (4 * 4))
          then 0 else 255)
        (List.range ((toGrayscale image).width * (toGrayscale image).height))
        (toGrayscale image).data := rfl

theorem bayerAt_bounds {a b : ℕ} (ha : a < 4) (hb : b < 4) :
    0 ≤ bayerAt a b ∧ bayerAt a b ≤ 15 := by
  interval_cases a <;> interval_cases b <;> norm_num [bayerAt, bayerMatrix, List.getD]

theorem bayerThreshold_bounds {a b : ℕ} (ha : a < 4) (hb : b < 4) :
    0 < (bayerAt a b + (0.5 : ℚ)) * (255 / (4 * 4)) ∧
      (bayerAt a b + (0.5 : ℚ)) * (255 / (4 * 4)) < 255 := by
  obtain ⟨h1, h2⟩ := bayerAt_bounds ha hb
  constructor <;> nlinarith

theorem lum_of_zero : lum 0 0 0 = 0 := by norm_num [lum]

theorem lum_of_255 : lum 255 255 255 = 255 := by norm_num [lum]

/-- Claim C7: ORDERED_BAYER is idempotent — running it a second time
(including the internal grayscale pass) reproduces the already-binarized
buffer bit for bit. -/
theorem c7_orderedBayer_idempotent (image : Image) :
    orderedBayer (orderedBayer image) = orderedBayer image := by
  refine Image_eq rfl rfl ?_
  funext i
  have hWH1 : (orderedBayer image).width * (orderedBayer image).height =
      image.width * image.height := rfl
  have hWH2 : (toGrayscale (orderedBayer image)).width *
      (toGrayscale (orderedBayer image)).height = image.width * image.height := rfl
  by_cases hc3 : i % 4 = 3
  · rw [orderedBayer_data (orderedBayer image), pixelScan_alpha hc3,
      toGrayscale_alpha (orderedBayer image) hc3]
  · by_cases hq : i / 4 < image.width * image.height
    · -- a colour channel of a raster pixel
      rw [show i = 4 * (i / 4) + i % 4 from by omega]
      have hcm : i % 4 < 3 := by omega
      have hmem1 : i / 4 ∈
          List.range ((orderedBayer image).width * (orderedBayer image).height) :=
        List.mem_range.mpr hq
      have hmem2 : i / 4 ∈
          List.range ((toGrayscale (orderedBayer image)).width *
            (toGrayscale (orderedBayer image)).height) := List.mem_range.mpr hq
      have hmemI : i / 4 ∈
          List.range ((toGrayscale image).width * (toGrayscale image).height) :=
        List.mem_range.mpr hq
      -- channels of the first pass
      have hv : ∀ c', c' < 3 → (orderedBayer image).data (4 * (i / 4) + c') =
          (if (toGrayscale image).data (4 * (i / 4)) <
              (bayerAt (((i / 4) / (toGrayscale image).width) % 4)
                (((i / 4) % (toGrayscale image).width) % 4) + (0.5 : ℚ)) * (255 / (4 * 4))
           then (0 : ℚ) else 255) := by
        intro c' hc'
        rw [orderedBayer_data image]
        exact pixelScan_channel (List.nodup_range _) hmemI hc'
      have h0 := hv 0 (by omega)
      rw [Nat.add_zero] at h0
      -- the grayscale pass of the second run reproduces the binary value
      have hgray : (toGrayscale (orderedBayer image)).data (4 * (i / 4)) =
          (orderedBayer image).data (4 * (i / 4)) := by
        have hch := pixelScan_channel (f := fun _ r g b => lum r g b)
          (List.nodup_range _) (d := (orderedBayer image).data) hmem1 (c := 0) (by omega)
        rw [Nat.add_zero] at hch
        rw [show (toGrayscale (orderedBayer image)).data =
            pixelScan (fun _ r g b => lum r g b)
              (List.range ((orderedBayer image).width * (orderedBayer image).height))
              (orderedBayer image).data from rfl, hch]
        rw [h0, hv 1 (by omega), hv 2 (by omega)]
        split
        · exact lum_of_zero
        · exact lum_of_255
      rw [orderedBayer_data (orderedBayer image),
        pixelScan_channel (List.nodup_range _) hmem2 hcm, hgray, hv (i % 4) hcm, h0]
      obtain ⟨hb1, hb2⟩ := bayerThreshold_bounds
        (a := ((i / 4) / (toGrayscale (orderedBayer image)).width) % 4)
        (b := ((i / 4) % (toGrayscale (orderedBayer image)).width) % 4)
        (Nat.mod_lt _ (by norm_num)) (Nat.mod_lt _ (by norm_num))
      by_cases hgi : (toGrayscale image).data (4 * (i / 4)) <
          (bayerAt (((i / 4) / (toGrayscale image).width) % 4)
            (((i / 4) % (toGrayscale image).width) % 4) + (0.5 : ℚ)) * (255 / (4 * 4))
      · rw [if_pos hgi, if_pos hb1]
      · rw [if_neg hgi, if_neg (not_lt.mpr (le_of_lt hb2))]
    · -- beyond the raster: both passes leave the index untouched
      rw [orderedBayer_data (orderedBayer image)]
      rw [pixelScan_apply_of_forall (fun p hp => by
        have hp2 := List.mem_range.mp hp
        rw [hWH2] at hp2
        omega)]
      rw [show (toGrayscale (orderedBayer image)).data =
          pixelScan (fun _ r g b => lum r g b)
            (List.range ((orderedBayer image).width * (orderedBayer image).height))
            (orderedBayer image).data from rfl]
      rw [pixelScan_apply_of_forall (fun p hp => by
        have hp2 := List.mem_range.mp hp
        rw [hWH1] at hp2
        omega)]

/-! ## Claim C4: EBS with an all-zero TM matrix is plain forward diffusion -/

/-- Reference model following the words of the specification (§4.7, §4.8
and the §8 EBS-equivalence property): fixed-threshold-128 forward error
diffusion — value = luminance plus carried error, binarized against the
fixed threshold 128; the residual error is diffused 7/16 to the right
neighbour, 5/16 to the pixel below and 1/16 to the pixel below-right
(in-bounds targets only), through per-row error buffers. -/
def specForwardFSPix (w h y : ℕ) (st : (ℕ → ℚ) × (ℕ → ℚ) × (ℕ → ℚ)) (x : ℕ) :
    (ℕ → ℚ) × (ℕ → ℚ) × (ℕ → ℚ) :=
  let d := st.1
  let errorBuffer := st.2.1
  let nextError := st.2.2
  let idx := (y * w + x) * 4
  let value := d idx + errorBuffer x
  let newPixel : ℚ := if value < 128 then 0 else 255
  let error := value - newPixel
  let d1 := update3 d idx newPixel
  let errorBuffer1 :=
    if x + 1 < w then updFn errorBuffer (x + 1) (errorBuffer (x + 1) + error * (7 / 16))
    else errorBuffer
  let nextError1 :=
    if y + 1 < h then
      let n1 := updFn nextError x (nextError x + error * (5 / 16))
      if x + 1 < w then updFn n1 (x + 1) (n1 (x + 1) + error * (1 / 16)) else n1
    else nextError
  (d1, errorBuffer1, nextError1)

/-- Reference model following the words of the specification: grayscale,
then the fixed-threshold-128 forward diffusion of `specForwardFSPix`
over all rows. -/
def specForwardFS (image : Image) : Image :=
  let g := toGrayscale image
  let final :=
    (List.range g.height).foldl
      (fun st y =>
        let r := (List.range g.width).foldl (specForwardFSPix g.width g.height y)
          (st.1, st.2, fun _ => 0)
        (r.1, r.2.2))
      (g.data, fun _ => (0 : ℚ))
  { g with data := final.1 }

/-- Claim C4: EVEN_BETTER_SCREENING with a caller-supplied TM matrix of
zeros produces exactly the output of fixed-threshold-128 forward error
diffusion with weights 7/16 right, 5/16 below, 1/16 below-right, since
the modulation term vanishes. -/
theorem c4_ebs_zero_tm (image : Image) (opts : DitherOptions) (tm : ℕ → ℕ → ℚ)
    (h1 : opts.tmmat = some tm) (h2 : ∀ i j, tm i j = 0) :
    evenBetterScreening image opts = specForwardFS image := by
  have hpix : ∀ y,
      ebsPix (toGrayscale image).width (toGrayscale image).height
        (jsOrNat opts.tmheight 256) (jsOrNat opts.tmwid 256) tm y =
      specForwardFSPix (toGrayscale image).width (toGrayscale image).height y := by
    intro y
    funext st x
    unfold ebsPix specForwardFSPix
    rw [h2]
    norm_num [clamp]
  unfold evenBetterScreening specForwardFS
  rw [h1]
  simp only [hpix]

set_option linter.unusedVariables false in
/-- Witness for claim C4: a concrete 1×1 image and a zero TM matrix. -/
theorem c4_ebs_zero_tm_witness :
    ({ tmmat := some fun _ _ => (0 : ℚ) } : DitherOptions).tmmat =
      some (fun _ _ => (0 : ℚ)) ∧
    (∀ i j : ℕ, (fun (_ _ : ℕ) => (0 : ℚ)) i j = 0) ∧
    evenBetterScreening ⟨1, 1, fun _ => 10⟩
        ({ tmmat := some fun _ _ => (0 : ℚ) } : DitherOptions) =
      specForwardFS ⟨1, 1, fun _ => 10⟩ :=
  ⟨rfl, fun i j => rfl,
    c4_ebs_zero_tm ⟨1, 1, fun _ => 10⟩ _ _ rfl fun i j => rfl⟩

/-! ## Claims C3 and C10: the dispatcher error surface -/

/-- Claim C10: calling `dither` with the algorithm argument `undefined`
while `options.custom` is a function returns `options.custom(image)`
instead of raising the unknown-algorithm error, because the commented-out
CUSTOM entry makes the CUSTOM case label evaluate to `undefined`. -/
theorem c10_undefined_custom (image : Image) (opts : DitherOptions) (f : Image → Image)
    (hc : opts.custom = some f) :
    dither image none opts = Except.ok (f image) := by
  simp [dither, ALGORITHMS_CUSTOM, hc]

/-- Witness for claim C10: a concrete image and the identity transform. -/
theorem c10_undefined_custom_witness :
    ({ custom := some id } : DitherOptions).custom = some (id : Image → Image) ∧
    dither ⟨1, 1, fun _ => 5⟩ none ({ custom := some id } : DitherOptions) =
      Except.ok (id ⟨1, 1, fun _ => 5⟩) :=
  ⟨rfl, c10_undefined_custom _ _ id rfl⟩

/-- Counterexample to claim C3 as stated: the tag "CUSTOM" — a member of
the algorithm set of the specification — raises UnknownAlgorithm even
with a caller-supplied transform, because the CUSTOM entry of the
ALGORITHMS object is commented out. -/
theorem c3_counterexample_custom_tag :
    dither ⟨1, 1, fun _ => 0⟩ (some "CUSTOM") ({ custom := some id } : DitherOptions) =
      Except.error (DitherError.unknownAlgorithm (some "CUSTOM")) ∧
    "CUSTOM" ∉ recognizedTags := by
  exact ⟨rfl, by decide⟩

/-- Claim C3, amended: the dispatcher raises UnknownAlgorithm exactly
when the tag is a defined string outside the 17 values present in the
ALGORITHMS object (so also for the string "CUSTOM", whose entry is
commented out); it raises MissingCustomHandler exactly when the tag is
the undefined value (the value of `ALGORITHMS.CUSTOM`) and no transform
is supplied; every other call returns normally. -/
theorem c3_dither_errors (image : Image) (opts : DitherOptions) (alg : Option String) :
    (dither image alg opts = Except.error (DitherError.unknownAlgorithm alg) ↔
      ∃ s, alg = some s ∧ s ∉ recognizedTags) ∧
    (dither image alg opts = Except.error DitherError.missingCustomHandler ↔
      alg = none ∧ opts.custom = none) ∧
    ((∃ out, dither image alg opts = Except.ok out) ↔
      ((∃ s, alg = some s ∧ s ∈ recognizedTags) ∨ (alg = none ∧ opts.custom ≠ none))) := by
  rcases alg with _ | s
  · rcases hc : opts.custom with _ | f <;>
      simp [dither, ALGORITHMS_CUSTOM, hc, recognizedTags]
  · by_cases hs : s ∈ recognizedTags
    · fin_cases hs <;> simp [dither, ALGORITHMS_CUSTOM, recognizedTags]
    · simp only [recognizedTags, List.mem_cons, List.mem_singleton, List.not_mem_nil,
        or_false] at hs
      push_neg at hs
      obtain ⟨h1, h2, h3, h4, h5, h6, h7, h8, h9, h10, h11, h12, h13, h14, h15, h16, h17⟩ := hs
      simp [dither, ALGORITHMS_CUSTOM, recognizedTags, h1, h2, h3, h4, h5, h6, h7, h8, h9,
        h10, h11, h12, h13, h14, h15, h16, h17]

/-! ## Claim C6: the generated even-toned screening matrix -/

theorem evenTonedCells_eq (N : ℕ) :
    evenTonedCells N = (List.range N) ×ˢ (List.range N) := rfl

theorem evenTonedCells_nodup (N : ℕ) : (evenTonedCells N).Nodup := by
  rw [evenTonedCells_eq]
  exact List.Nodup.product (List.nodup_range _) (List.nodup_range _)

theorem evenTonedCells_length (N : ℕ) : (evenTonedCells N).length = N * N := by
  rw [evenTonedCells_eq, List.length_product]
  simp

theorem evenTonedCells_mem {N : ℕ} {c : ℕ × ℕ} :
    c ∈ evenTonedCells N ↔ c.1 < N ∧ c.2 < N := by
  rw [evenTonedCells_eq]
  rw [show c = (c.1, c.2) from rfl, List.mem_product]
  simp [List.mem_range]

instance cellLE_total (N : ℕ) : IsTotal (ℕ × ℕ) (cellLE N) := ⟨by
  intro a b
  unfold cellLE
  rcases lt_trichotomy (cellDistSq N a) (cellDistSq N b) with h | h | h
  · exact Or.inl (Or.inl h)
  · rcases Nat.lt_trichotomy a.1 b.1 with h2 | h2 | h2
    · exact Or.inl (Or.inr ⟨h, Or.inl h2⟩)
    · rcases Nat.le_total a.2 b.2 with h3 | h3
      · exact Or.inl (Or.inr ⟨h, Or.inr ⟨h2, h3⟩⟩)
      · exact Or.inr (Or.inr ⟨h.symm, Or.inr ⟨h2.symm, h3⟩⟩)
    · exact Or.inr (Or.inr ⟨h.symm, Or.inl h2⟩)
  · exact Or.inr (Or.inl h)⟩

instance cellLE_trans (N : ℕ) : IsTrans (ℕ × ℕ) (cellLE N) := ⟨by
  intro a b c hab hbc
  unfold cellLE at hab hbc ⊢
  rcases hab with h1 | ⟨h1, h1l⟩ <;> rcases hbc with h2 | ⟨h2, h2l⟩
  · exact Or.inl (lt_trans h1 h2)
  · exact Or.inl (h2 ▸ h1)
  · exact Or.inl (lt_of_le_of_lt (le_of_eq h1) h2)
  · refine Or.inr ⟨h1.trans h2, ?_⟩
    rcases h1l with hi | ⟨hi, hj⟩ <;> rcases h2l with hi2 | ⟨hi2, hj2⟩
    · exact Or.inl (Nat.lt_trans hi hi2)
    · exact Or.inl (hi2 ▸ hi)
    · exact Or.inl (Nat.lt_of_le_of_lt (Nat.le_of_eq hi) hi2)
    · exact Or.inr ⟨hi.trans hi2, Nat.le_trans hj hj2⟩⟩

theorem sortedCells_perm (N : ℕ) : (sortedCells N).Perm (evenTonedCells N) :=
  List.perm_insertionSort _ _

theorem sortedCells_nodup (N : ℕ) : (sortedCells N).Nodup :=
  (sortedCells_perm N).nodup_iff.mpr (evenTonedCells_nodup N)

theorem sortedCells_length (N : ℕ) : (sortedCells N).length = N * N :=
  (sortedCells_perm N).length_eq.trans (evenTonedCells_length N)

theorem sortedCells_sorted (N : ℕ) : List.Sorted (cellLE N) (sortedCells N) :=
  List.sorted_insertionSort _ _

/-- Writing ranks in enumeration order into an all-different cell list:
the cell at position `k` ends with rank `n + k`, and unlisted positions
keep their previous value. -/
theorem rankFold_spec :
    ∀ (L : List (ℕ × ℕ)) (n : ℕ) (m : ℕ → ℕ → ℕ), L.Nodup →
      (∀ k, (hk : k < L.length) →
        ((L.enumFrom n).foldl
            (fun mm kc => fun a b => if a = kc.2.1 ∧ b = kc.2.2 then kc.1 else mm a b) m)
          (L.get ⟨k, hk⟩).1 (L.get ⟨k, hk⟩).2 = n + k) ∧
      (∀ p : ℕ × ℕ, p ∉ L →
        ((L.enumFrom n).foldl
            (fun mm kc => fun a b => if a = kc.2.1 ∧ b = kc.2.2 then kc.1 else mm a b) m)
          p.1 p.2 = m p.1 p.2) := by
  intro L
  induction L with
  | nil =>
    intro n m _
    exact ⟨fun k hk => absurd hk (by simp), fun p _ => rfl⟩
  | cons a L ih =>
    intro n m hnd
    have ha : a ∉ L := (List.nodup_cons.mp hnd).1
    obtain ⟨ih1, ih2⟩ := ih (n + 1)
      (fun x y => if x = a.1 ∧ y = a.2 then n else m x y) (List.nodup_cons.mp hnd).2
    rw [List.enumFrom_cons]
    constructor
    · intro k hk
      cases k with
      | zero =>
        rw [List.foldl_cons]
        have h2 := ih2 a ha
        rw [show (((a :: L).get ⟨0, hk⟩) : ℕ × ℕ) = a from rfl, h2, if_pos ⟨rfl, rfl⟩]
        exact (Nat.add_zero n).symm
      | succ k2 =>
        have h1 := ih1 k2 (by simpa using Nat.lt_of_succ_lt_succ hk)
        rw [List.foldl_cons, List.get_cons_succ]
        exact h1.trans (by rw [Nat.add_assoc, Nat.add_comm 1 k2])
    · intro p hp
      have hpa : p ≠ a := fun h => hp (h ▸ List.mem_cons_self _ _)
      have hpL : p ∉ L := fun h => hp (List.mem_cons_of_mem _ h)
      rw [List.foldl_cons, ih2 p hpL,
        if_neg fun hEq => hpa (Prod.ext_iff.mpr ⟨hEq.1, hEq.2⟩)]

set_option linter.unusedVariables false in
/-- Claim C6: for every N ≥ 1 the generated even-toned screening matrix
assigns rank k to the k-th cell of the N×N block when the cells are
sorted by ascending distance to the center with ties broken by row then
column, and every rank in 0..N²−1 is taken by exactly one cell. -/
theorem c6_even_toned_matrix (N : ℕ) (hN : 1 ≤ N) :
    (sortedCells N).length = N * N ∧
    List.Sorted (cellLE N) (sortedCells N) ∧
    (sortedCells N).Perm (evenTonedCells N) ∧
    (∀ k, k < N * N →
      generateEvenTonedMatrix N ((sortedCells N).getD k (0, 0)).1
        ((sortedCells N).getD k (0, 0)).2 = k) ∧
    (∀ r, r < N * N → ∃! c : ℕ × ℕ, c.1 < N ∧ c.2 < N ∧
      generateEvenTonedMatrix N c.1 c.2 = r) := by
  have hchar : ∀ k, (hk : k < (sortedCells N).length) →
      generateEvenTonedMatrix N ((sortedCells N).get ⟨k, hk⟩).1
        ((sortedCells N).get ⟨k, hk⟩).2 = k := by
    intro k hk
    have := (rankFold_spec (sortedCells N) 0 (fun _ _ => 0) (sortedCells_nodup N)).1 k hk
    rw [Nat.zero_add] at this
    exact this
  refine ⟨sortedCells_length N, sortedCells_sorted N, sortedCells_perm N, ?_, ?_⟩
  · intro k hk
    have hk2 : k < (sortedCells N).length := by rw [sortedCells_length]; exact hk
    rw [List.getD_eq_getElem (sortedCells N) (0, 0) hk2]
    exact hchar k hk2
  · intro r hr
    have hr2 : r < (sortedCells N).length := by rw [sortedCells_length]; exact hr
    refine ⟨(sortedCells N).get ⟨r, hr2⟩, ?_, ?_⟩
    · have hmem : (sortedCells N).get ⟨r, hr2⟩ ∈ evenTonedCells N :=
        (sortedCells_perm N).mem_iff.mp (List.get_mem _ _ _)
      obtain ⟨hb1, hb2⟩ := evenTonedCells_mem.mp hmem
      exact ⟨hb1, hb2, hchar r hr2⟩
    · rintro c ⟨hc1, hc2, hcr⟩
      have hcmem : c ∈ sortedCells N :=
        (sortedCells_perm N).mem_iff.mpr (evenTonedCells_mem.mpr ⟨hc1, hc2⟩)
      obtain ⟨⟨k, hk⟩, hkEq⟩ := List.mem_iff_get.mp hcmem
      have := hchar k hk
      rw [hkEq] at this
      rw [this] at hcr
      subst hcr
      exact hkEq.symm

/-- Witness for claim C6: the generated 2×2 matrix. -/
theorem c6_even_toned_matrix_witness :
    1 ≤ 2 ∧
    ((sortedCells 2).length = 2 * 2 ∧
    List.Sorted (cellLE 2) (sortedCells 2) ∧
    (sortedCells 2).Perm (evenTonedCells 2) ∧
    (∀ k, k < 2 * 2 →
      generateEvenTonedMatrix 2 ((sortedCells 2).getD k (0, 0)).1
        ((sortedCells 2).getD k (0, 0)).2 = k) ∧
    (∀ r, r < 2 * 2 → ∃! c : ℕ × ℕ, c.1 < 2 ∧ c.2 < 2 ∧
      generateEvenTonedMatrix 2 c.1 c.2 = r)) :=
  ⟨by decide, c6_even_toned_matrix 2 (by decide)⟩

/-! ## Claim C9: the bit-packing stage of the printer driver -/

/-- A pixel is "ink" when its red component is 0 and it is not
transparent (`rgba.r === 0 && rgba.a !== 0`); a pixel is modelled by its
(red, alpha) byte pair. -/
def inkPix (p : ℕ × ℕ) : Bool := p.1 == 0 && p.2 != 0

/-- One byte of the packing loop: for bits 0..7, set bit `7 - bit` when
pixel `bit` of the group of 8 horizontally adjacent pixels is ink. -/
def packByte (pixels : ℕ → ℕ × ℕ) : ℕ :=
  (List.range 8).foldl
    (fun byte bit => if inkPix (pixels bit) then byte ||| (1 <<< (7 - bit)) else byte) 0

/-- The byte actually appended to the print data: a packed byte equal to
0x0A (line feed) is replaced by 0x14 to avoid conflicts with the
protocol. -/
def emitByte (pixels : ℕ → ℕ × ℕ) : ℕ :=
  let byte := packByte pixels
  if byte = 0x0a then 0x14 else byte

/-- Counterexample to claim C9 as stated: a group whose ink pixels are
exactly positions 4 and 6 packs to 0x0A, so 0x14 is emitted and bit
7−4 = 3 of the emitted byte is clear although pixel 4 is ink. -/
theorem c9_counterexample_lf_byte :
    packByte (fun i => if i = 4 ∨ i = 6 then ((0, 255) : ℕ × ℕ) else (255, 255)) = 0x0a ∧
    emitByte (fun i => if i = 4 ∨ i = 6 then ((0, 255) : ℕ × ℕ) else (255, 255)) = 0x14 ∧
    inkPix ((fun i => if i = 4 ∨ i = 6 then ((0, 255) : ℕ × ℕ) else (255, 255)) 4) = true ∧
    Nat.testBit
      (emitByte (fun i => if i = 4 ∨ i = 6 then ((0, 255) : ℕ × ℕ) else (255, 255)))
      (7 - 4) = false := by
  decide

set_option maxHeartbeats 1600000 in
/-- Claim C9, amended: in the packed byte, bit `7 - i` is set exactly
when pixel `i` of the group is ink (bit 7 = leftmost pixel); the emitted
byte equals the packed byte except that a packed value of 0x0A is
replaced by 0x14. -/
theorem c9_bit_packing (pixels : ℕ → ℕ × ℕ) :
    (∀ i, i < 8 → Nat.testBit (packByte pixels) (7 - i) = inkPix (pixels i)) ∧
    emitByte pixels = (if packByte pixels = 0x0a then 0x14 else packByte pixels) := by
  refine ⟨?_, rfl⟩
  intro i hi
  rw [show packByte pixels = (List.range 8).foldl
      (fun byte bit => if inkPix (pixels bit) then byte ||| (1 <<< (7 - bit)) else byte) 0
    from rfl, show List.range 8 = [0, 1, 2, 3, 4, 5, 6, 7] from by decide]
  simp only [List.foldl_cons, List.foldl_nil]
  interval_cases i <;>
    cases h0 : inkPix (pixels 0) <;> cases h1 : inkPix (pixels 1) <;>
    cases h2 : inkPix (pixels 2) <;> cases h3 : inkPix (pixels 3) <;>
    cases h4 : inkPix (pixels 4) <;> cases h5 : inkPix (pixels 5) <;>
    cases h6 : inkPix (pixels 6) <;> cases h7 : inkPix (pixels 7) <;>
    simp [h0, h1, h2, h3, h4, h5, h6, h7] <;> decide
